import Mathlib

/-!
Shallow embedding of the pyj2d audio mixer (mixer.py): the channel pool
manager, the Channel state machine, Sound playback and initialization.

Modeling conventions, all taken from the source:
* A Java `ConcurrentLinkedDeque` is modeled as a `List` whose head is the
  front of the deque: `add` appends at the tail, `pop` removes the head,
  `remove` erases the first occurrence, iteration runs front to back, and
  `getFirst` reads the head.
* Channel ids are `Int`.  The music channel (id `-1`) is created only by the
  `Music` wrapper, which is outside this model; the `id > -1` guards of the
  source are kept verbatim.
* Python floats are used by the modeled code only for exact comparison
  against `0.0`/`1.0`, assignment and multiplication, never for rounding
  arithmetic, so volumes are embedded as rationals.
* A decode cursor (`javax` `AudioInputStream`) is modeled as the list of the
  lengths of the successive successful reads it will serve; reading at
  end-of-stream yields a non-positive length (modeled as 0, as allowed by the
  backend boundary: zero or negative signals end-of-stream).
* A raised-and-propagated exception is modeled by an `Option`-valued result
  (`none` = the call raised), carrying the state at the raise point.
-/

/-- A Sound: immutable audio data (the lengths of the successive reads its
decode cursor yields) plus a playback volume (`Sound._volume`). -/
structure Snd where
  chunks : List Nat
  volume : Rat
deriving DecidableEq, Repr

/-- Per-channel state, mirroring the fields set in `Channel.__init__` and
mutated by the channel methods. -/
structure ChannelState where
  sound : Option Snd
  stream : Option (List Nat)
  active : Bool
  pause : Bool
  loops : Int
  volume : Rat
  lvolume : Rat
  rvolume : Rat
deriving DecidableEq, Repr

/-- The field values `Channel.__init__` assigns to a fresh channel. -/
def freshChannel : ChannelState :=
  { sound := none, stream := none, active := false, pause := false
    loops := 0, volume := 1, lvolume := 1, rvolume := 1 }

/-- Mixer singleton state (`Mixer.__init__` fields).  `buffer_size_set`
records whether the `_bufferSize` attribute exists (it is assigned by any
`init` attempt, successful or not); `mixer_obj` records whether `_mixer`
holds a backend object. -/
structure MixerState where
  channel_max : Int
  channels : Int → Option ChannelState
  channel_available : List Int
  channel_active : List Int
  channel_reserved : List Int
  channel_reserved_num : Int
  active_flag : Bool
  initialized : Bool
  buffer_size_set : Bool
  mixer_obj : Bool
  fmt_frequency : Int
  fmt_size_bits : Int
  fmt_signed : Bool
  fmt_channels : Int

/-- Integer range `[a, b)` as a list, like Python `range` over ints. -/
def intRange (a b : Int) : List Int :=
  (List.range (b - a).toNat).map (fun (i : Nat) => a + (i : Int))

/-- The state built by `Mixer.__init__`. -/
def mkMixer : MixerState :=
  { channel_max := 8
    channels := fun _ => none
    channel_available := intRange 0 8
    channel_active := []
    channel_reserved := []
    channel_reserved_num := 0
    active_flag := false
    initialized := false
    buffer_size_set := false
    mixer_obj := false
    fmt_frequency := 0
    fmt_size_bits := 0
    fmt_signed := false
    fmt_channels := 0 }

/-- Write a channel record into the registry (`self._channels[id] = channel`). -/
def regSet (s : MixerState) (id : Int) (ch : ChannelState) : MixerState :=
  { s with channels := fun j => if j = id then some ch else s.channels j }

/-- Delete a registry entry (`del self._channels[id]`). -/
def regDel (s : MixerState) (id : Int) : MixerState :=
  { s with channels := fun j => if j = id then none else s.channels j }

/-- `Mixer._activate_channel`. -/
def activate_channel (s : MixerState) (id : Int) : MixerState :=
  let s :=
    if id > s.channel_reserved_num - 1 then
      { s with channel_available := s.channel_available.erase id }
    else
      { s with channel_reserved := s.channel_reserved.erase id }
  { s with channel_active := s.channel_active ++ [id], active_flag := true }

/-- `Mixer._deactivate_channel`. -/
def deactivate_channel (s : MixerState) (id : Int) : MixerState :=
  let act := s.channel_active.erase id
  { s with channel_active := act
           active_flag := if act.isEmpty then false else s.active_flag }

/-- `Mixer._restore_channel`. -/
def restore_channel (s : MixerState) (id : Int) : MixerState :=
  if id > s.channel_reserved_num - 1 then
    { s with channel_available := s.channel_available ++ [id] }
  else if id > -1 then
    { s with channel_reserved := s.channel_reserved ++ [id] }
  else s

/-- `Mixer._register_channel` guarded by the `Channel.__init__` body: creating
a `Channel` reads `self._mixer._bufferSize` (an `AttributeError` if no `init`
was ever attempted) and then registers, raising if `id` is at or beyond
capacity.  `none` models the raised exception (registry unchanged). -/
def register_channel (s : MixerState) (id : Int) : Option MixerState :=
  if s.buffer_size_set = false then none
  else if id < s.channel_max then some (regSet s id freshChannel)
  else none

/-- `Mixer._get_channel`: return the registered channel, or construct (and
register) a fresh one.  `none` models a propagated exception. -/
def get_channel (s : MixerState) (id : Int) : Option MixerState :=
  match s.channels id with
  | some _ => some s
  | none => register_channel s id

/-- `Mixer.get_num_channels`. -/
def get_num_channels (s : MixerState) : Int :=
  s.channel_max

/-- `Channel.stop`: no-op when the active flag is clear; otherwise clear the
flag, deactivate, close the stream and clear the sound, pause flag, loop
count and volumes (yielding exactly the fresh-channel record), then restore
the id to its inactive pool. -/
def channel_stop (s : MixerState) (id : Int) : MixerState :=
  match s.channels id with
  | none => s
  | some ch =>
    if ch.active = false then s
    else
      let s := regSet s id { ch with active := false }
      let s := deactivate_channel s id
      let s := regSet s id freshChannel
      restore_channel s id

/-- One iteration of the `set_num_channels` shrink loop: if the id is
registered, stop its channel (a no-op unless the active flag is set) and
delete the registry entry; then remove the id from `available`. -/
def shrink_channel (s : MixerState) (id : Int) : MixerState :=
  let s :=
    match s.channels id with
    | some _ => regDel (channel_stop s id) id
    | none => s
  { s with channel_available := s.channel_available.erase id }

/-- `Mixer.set_num_channels`. -/
def set_num_channels (s : MixerState) (count : Int) : MixerState :=
  if count ≥ s.channel_max then
    let s := { s with channel_available := s.channel_available ++ intRange s.channel_max count }
    { s with channel_max := count }
  else if count ≥ 0 then
    let s := (intRange count s.channel_max).foldl shrink_channel s
    { s with channel_max := count }
  else s

/-- `Mixer.set_reserved`. -/
def set_reserved (s : MixerState) (count : Int) : MixerState :=
  let count :=
    if count > s.channel_max then s.channel_max
    else if count < 0 then 0 else count
  let s := { s with channel_reserved_num := count, channel_reserved := [] }
  (intRange 0 count).foldl (fun s id =>
    { s with channel_reserved := s.channel_reserved ++ [id]
             channel_available := s.channel_available.erase id }) s

/-- `Channel.pause`. -/
def channel_pause (s : MixerState) (id : Int) : MixerState :=
  match s.channels id with
  | none => s
  | some ch =>
    if ch.active then regSet s id { ch with active := false, pause := true }
    else s

/-- `Channel.unpause`. -/
def channel_unpause (s : MixerState) (id : Int) : MixerState :=
  match s.channels id with
  | none => s
  | some ch =>
    if ch.pause then regSet s id { ch with active := true, pause := false }
    else s

/-- Clamp a volume argument to `[0, 1]` exactly as the source does. -/
def clampVol (v : Rat) : Rat :=
  if v < 0 then 0 else if v > 1 then 1 else v

/-- `Channel.set_volume`.  `volume2 = none` models an omitted second
argument; Python `if volume2:` is falsy both for `None` and for `0.0`. -/
def channel_set_volume (s : MixerState) (id : Int) (volume : Rat)
    (volume2 : Option Rat) : MixerState :=
  match s.channels id with
  | none => s
  | some ch =>
    let v := clampVol volume
    let ch := { ch with lvolume := v }
    match volume2 with
    | some v2 =>
      if v2 ≠ 0 then regSet s id { ch with rvolume := clampVol v2 }
      else regSet s id { ch with rvolume := v, volume := v }
    | none => regSet s id { ch with rvolume := v, volume := v }

/-- `Channel.get_volume` (returns `self._volume`). -/
def channel_get_volume (s : MixerState) (id : Int) : Option Rat :=
  (s.channels id).map ChannelState.volume

/-- `Channel._set_sound` followed by the rest of `Channel._play` (also the
tail of the public `Channel.play`): bind the sound, open its decode cursor
from the start, set the loop count and the active flag. -/
def channel_play_priv (s : MixerState) (id : Int) (snd : Snd) (loops : Int) :
    MixerState :=
  match s.channels id with
  | none => s
  | some ch =>
    regSet s id { ch with sound := some snd, stream := some snd.chunks
                          loops := loops, active := true }

/-- `Channel.play` (public): when a sound is currently bound, save the l/r
volumes, `stop()`, re-apply the saved volumes, then bind the new sound and
ask the pool manager to activate the id. -/
def channel_play (s : MixerState) (id : Int) (snd : Snd) (loops : Int) :
    MixerState :=
  match s.channels id with
  | none => s
  | some ch =>
    let s :=
      match ch.sound with
      | some _ =>
        let s := channel_stop s id
        channel_set_volume s id ch.lvolume (some ch.rvolume)
      | none => s
    let s := channel_play_priv s id snd loops
    activate_channel s id

/-- `Channel._get`: one pull of the decode cursor.  Returns the read length
and the left/right gains, plus the successor state.  The guard branch models
the `AttributeError` cases (no registered channel, closed stream, no sound)
that the mixing cycle catches and skips. -/
def channel_get (s : MixerState) (id : Int) : (Int × Rat × Rat) × MixerState :=
  match s.channels id with
  | none => ((0, 1, 1), s)
  | some ch =>
    match ch.stream, ch.sound with
    | some (c :: rest), some snd =>
      ((c, ch.lvolume * snd.volume, ch.rvolume * snd.volume),
        regSet s id { ch with stream := some rest })
    | some [], some snd =>
      if ch.loops = 0 then ((0, 1, 1), channel_stop s id)
      else
        ((0, 1, 1),
          regSet s id { ch with sound := some snd, stream := some snd.chunks
                                loops := ch.loops - 1 })
    | _, _ => ((0, 1, 1), s)

/-- Iterate `Channel._get` a given number of times, collecting the read
lengths (the data the mixing thread would see from this channel). -/
def pulls (s : MixerState) (id : Int) : Nat → List Int × MixerState
  | 0 => ([], s)
  | n + 1 =>
    let r := channel_get s id
    let rest := pulls r.2 id n
    (r.1.1 :: rest.1, rest.2)

/-- The scan of `Mixer.find_channel`'s force branch over the active deque:
returns `(longest, longest_reserved)` exactly as the source loop computes
them (first id beyond the reserved threshold breaks the loop; the first
non-music reserved id is remembered). -/
def force_scan (rnum : Int) : List Int → Option Int × Option Int
  | [] => (none, none)
  | id :: rest =>
    if id > rnum - 1 then (some id, none)
    else if id > -1 then
      ((force_scan rnum rest).1, some id)
    else force_scan rnum rest

/-- `Mixer.find_channel`.  First component: `none` models a propagated
exception from channel construction; `some none` is a `None` return;
`some (some id)` is a returned channel.  Second component: the state (at the
raise point when an exception propagates). -/
def find_channel (s : MixerState) (force : Bool) :
    Option (Option Int) × MixerState :=
  match s.channel_available with
  | id :: rest =>
    let s := { s with channel_available := rest ++ [id] }
    (match get_channel s id with
     | some s2 => (some (some id), s2)
     | none => (none, s))
  | [] =>
    match (if s.channel_reserved_num ≠ 0 then s.channel_reserved else []) with
    | id :: rest =>
      let s := { s with channel_reserved := rest ++ [id] }
      (match get_channel s id with
       | some s2 => (some (some id), s2)
       | none => (none, s))
    | [] =>
      if force = false then (some none, s)
      else
        let scan := force_scan s.channel_reserved_num s.channel_active
        let channel :=
          match scan.1 with
          | some id => id
          | none =>
            match scan.2 with
            | some id => id
            | none => 0
        (match get_channel s channel with
         | some s2 => (some (some channel), s2)
         | none => (none, s))

/-- `Mixer._retrieve_channel`: pop an id from `available` (a true removal),
construct/register its channel, append it to `active` and set the busy flag.
`(some none, _)` is the caught-empty case (`channel = None`). -/
def retrieve_channel (s : MixerState) : Option (Option Int) × MixerState :=
  match s.channel_available with
  | [] => (some none, s)
  | id :: rest =>
    let s := { s with channel_available := rest }
    (match get_channel s id with
     | none => (none, s)
     | some s2 =>
       (some (some id),
         { s2 with channel_active := s2.channel_active ++ [id]
                   active_flag := true }))

/-- `Sound.play`: retrieve-and-activate a channel, then `Channel._play`; when
no channel is available the `AttributeError` on `None._play` is caught and
`None` is returned. -/
def sound_play (s : MixerState) (snd : Snd) (loops : Int) :
    Option (Option Int) × MixerState :=
  match retrieve_channel s with
  | (none, s) => (none, s)
  | (some none, s) => (some none, s)
  | (some (some id), s) => (some (some id), channel_play_priv s id snd loops)

/-- `Mixer.pause`: pause every non-music channel in the active deque. -/
def mixer_pause (s : MixerState) : MixerState :=
  s.channel_active.foldl (fun s id => if id > -1 then channel_pause s id else s) s

/-- `Mixer.unpause`: unpause every non-music channel in the active deque. -/
def mixer_unpause (s : MixerState) : MixerState :=
  s.channel_active.foldl (fun s id => if id > -1 then channel_unpause s id else s) s

/-- `Mixer.init`.  `backend_ok` models whether the audio backend opens
(`AudioMixer(...)` not raising and `isInitialized()` true).  The source
returns `None` on every path, success included; the `Music` wrapper and the
thread start are outside this model.  Size is modeled as an `Int` (the
float-typed big-endian selection is not modeled), so the stored format is
little-endian signed/unsigned PCM. -/
def mixer_init (s : MixerState) (backend_ok : Bool)
    (frequency size channels buffer : Int) :
    Option (Int × Int × Int) × MixerState :=
  if s.initialized = false then
    let s :=
      { s with fmt_signed := size < 0
               fmt_channels := if channels ≤ 1 then 1 else 2
               fmt_frequency := frequency
               fmt_size_bits := (size.natAbs : Int)
               buffer_size_set := true }
    if backend_ok = false then (none, { s with mixer_obj := false })
    else (none, { s with mixer_obj := true, initialized := true })
  else (none, s)

/-- `Mixer.get_init`: the negotiated format, or `None` when uninitialized.
With the (modeled, little-endian) format the reported size is negative. -/
def get_init (s : MixerState) : Option (Int × Int × Int) :=
  if s.initialized then
    some (s.fmt_frequency, s.fmt_size_bits * (-1), s.fmt_channels)
  else none

/-! ## Public operation sequences

The public pool operations named by the specification, as one step relation,
together with the preconditions under which the pool partition is preserved
(`safe_op`) and the well-formedness invariant (`WF`). -/

/-- One public mixer operation. -/
inductive MOp where
  | init (backend_ok : Bool) (frequency size channels buffer : Int)
  | setNumChannels (n : Int)
  | setReserved (n : Int)
  | findChannel (force : Bool)
  | soundPlay (snd : Snd) (loops : Int)
  | channelPlay (id : Int) (snd : Snd) (loops : Int)
  | channelStop (id : Int)
  | mixerPause
  | mixerUnpause
  | channelPause (id : Int)
  | channelUnpause (id : Int)

/-- Execute one public operation (dropping returned values). -/
def exec (op : MOp) (s : MixerState) : MixerState :=
  match op with
  | .init ok f sz c b => (mixer_init s ok f sz c b).2
  | .setNumChannels n => set_num_channels s n
  | .setReserved n => set_reserved s n
  | .findChannel f => (find_channel s f).2
  | .soundPlay snd l => (sound_play s snd l).2
  | .channelPlay id snd l => channel_play s id snd l
  | .channelStop id => channel_stop s id
  | .mixerPause => mixer_pause s
  | .mixerUnpause => mixer_unpause s
  | .channelPause id => channel_pause s id
  | .channelUnpause id => channel_unpause s id

/-- Execute a sequence of public operations, left to right. -/
def execs (ops : List MOp) (s : MixerState) : MixerState :=
  ops.foldl (fun s op => exec op s) s

/-- Precondition under which an operation preserves the pool partition:
`set_reserved` must not grab an id that is in the active deque and must not
drop a pooled reserved id; shrinking the capacity must not cut into the
reserved region nor hit a paused channel; `Sound.play` and `Channel.play`
need a constructible channel (`init` attempted / registered, not paused). -/
def safe_op (op : MOp) (s : MixerState) : Bool :=
  match op with
  | .init _ _ _ _ _ => true
  | .setNumChannels n =>
    !(decide (0 ≤ n) && decide (n < s.channel_max)) ||
      (decide (s.channel_reserved_num ≤ n) &&
        (intRange n s.channel_max).all (fun id =>
          Option.all (fun ch => !ch.pause) (s.channels id)))
  | .setReserved n =>
    let m := if n > s.channel_max then s.channel_max
             else if n < 0 then 0 else n
    s.channel_active.all (fun id => decide (m ≤ id)) &&
      s.channel_reserved.all (fun id => decide (id < m))
  | .findChannel _ => true
  | .soundPlay _ _ => s.buffer_size_set
  | .channelPlay id _ _ =>
    decide ((s.channels id).map ChannelState.pause = some false)
  | .channelStop _ => true
  | .mixerPause => true
  | .mixerUnpause => true
  | .channelPause _ => true
  | .channelUnpause _ => true

/-- A whole operation sequence is safe from `s` when every step satisfies its
precondition in the state it runs in. -/
def safe_seq (ops : List MOp) (s : MixerState) : Bool :=
  match ops with
  | [] => true
  | op :: rest => safe_op op s && safe_seq rest (exec op s)

/-- Membership in any of the three pools. -/
def inPools (s : MixerState) (id : Int) : Prop :=
  id ∈ s.channel_available ∨ id ∈ s.channel_reserved ∨ id ∈ s.channel_active

/-- Well-formedness of the mixer state: the inductive strengthening of the
pool-partition invariant.  The pools are duplicate-free and pairwise
disjoint, together they cover exactly `[0, channel_max)`, the reserved pool
holds exactly the inactive ids below `channel_reserved_num`, and the channel
registry is coherent with pool membership. -/
structure WF (s : MixerState) : Prop where
  ndA : s.channel_available.Nodup
  ndR : s.channel_reserved.Nodup
  ndC : s.channel_active.Nodup
  dAR : ∀ id, id ∈ s.channel_available → id ∉ s.channel_reserved
  dAC : ∀ id, id ∈ s.channel_available → id ∉ s.channel_active
  dRC : ∀ id, id ∈ s.channel_reserved → id ∉ s.channel_active
  memIff : ∀ id, inPools s id ↔ (0 ≤ id ∧ id < s.channel_max)
  resLt : ∀ id, id ∈ s.channel_reserved → id < s.channel_reserved_num
  resConv : ∀ id, 0 ≤ id → id < s.channel_reserved_num →
    id ∉ s.channel_active → id ∈ s.channel_reserved
  rnumNonneg : 0 ≤ s.channel_reserved_num
  rnumLe : s.channel_reserved_num ≤ s.channel_max
  dom : ∀ id ch, s.channels id = some ch → 0 ≤ id ∧ id < s.channel_max
  inactClean : ∀ id, (id ∈ s.channel_available ∨ id ∈ s.channel_reserved) →
    ∀ ch, s.channels id = some ch → ch.active = false ∧ ch.pause = false
  actReg : ∀ id, id ∈ s.channel_active →
    ∃ ch, s.channels id = some ch ∧ (ch.active = true ∨ ch.pause = true)
  flagAct : ∀ id ch, s.channels id = some ch → ch.active = true →
    id ∈ s.channel_active
  liveSound : ∀ id ch, s.channels id = some ch →
    (ch.active = true ∨ ch.pause = true) → ch.sound ≠ none

/-- The pool-partition property the specification states: every id in
`[0, channel_max)` occurs in exactly one pool (counting multiplicity, so no
id is lost or duplicated), reserved membership only below the reserved
count, and no pool holds an out-of-range id. -/
def PoolInvariant (s : MixerState) : Prop :=
  (∀ id, 0 ≤ id → id < s.channel_max →
    s.channel_available.count id + s.channel_reserved.count id
      + s.channel_active.count id = 1)
  ∧ (∀ id, id ∈ s.channel_reserved → id < s.channel_reserved_num)
  ∧ (∀ id, inPools s id → 0 ≤ id ∧ id < s.channel_max)

theorem mem_intRange {a b id : Int} : id ∈ intRange a b ↔ a ≤ id ∧ id < b := by
  unfold intRange
  constructor
  · intro h
    obtain ⟨i, hi, hid⟩ := List.mem_map.mp h
    rw [List.mem_range] at hi
    have hid2 : a + (i : Int) = id := hid
    omega
  · intro h
    refine List.mem_map.mpr ⟨(id - a).toNat, ?_, ?_⟩
    · rw [List.mem_range]
      omega
    · show a + ((id - a).toNat : Int) = id
      omega

theorem nodup_intRange {a b : Int} : (intRange a b).Nodup := by
  unfold intRange
  refine List.Nodup.map ?_ (List.nodup_range _)
  intro i j h
  have h2 : a + (i : Int) = a + (j : Int) := h
  omega

/-! ## Effect lemmas -/

theorem nodup_append_one {l : List Int} {a : Int} (h : l.Nodup) (ha : a ∉ l) :
    (l ++ [a]).Nodup := by
  rw [List.nodup_append]
  refine ⟨h, List.nodup_singleton a, fun x hx hxa => ?_⟩
  rw [List.mem_singleton] at hxa
  subst hxa
  exact ha hx

@[simp] theorem regSet_channels (s : MixerState) (id : Int) (ch : ChannelState)
    (j : Int) :
    (regSet s id ch).channels j = if j = id then some ch else s.channels j := rfl

@[simp] theorem regSet_available (s : MixerState) (id : Int) (ch : ChannelState) :
    (regSet s id ch).channel_available = s.channel_available := rfl

@[simp] theorem regSet_reserved (s : MixerState) (id : Int) (ch : ChannelState) :
    (regSet s id ch).channel_reserved = s.channel_reserved := rfl

@[simp] theorem regSet_active (s : MixerState) (id : Int) (ch : ChannelState) :
    (regSet s id ch).channel_active = s.channel_active := rfl

@[simp] theorem regSet_rnum (s : MixerState) (id : Int) (ch : ChannelState) :
    (regSet s id ch).channel_reserved_num = s.channel_reserved_num := rfl

@[simp] theorem regSet_max (s : MixerState) (id : Int) (ch : ChannelState) :
    (regSet s id ch).channel_max = s.channel_max := rfl

@[simp] theorem regSet_buffer (s : MixerState) (id : Int) (ch : ChannelState) :
    (regSet s id ch).buffer_size_set = s.buffer_size_set := rfl

@[simp] theorem regDel_channels (s : MixerState) (id : Int) (j : Int) :
    (regDel s id).channels j = if j = id then none else s.channels j := rfl

@[simp] theorem regDel_available (s : MixerState) (id : Int) :
    (regDel s id).channel_available = s.channel_available := rfl

@[simp] theorem regDel_reserved (s : MixerState) (id : Int) :
    (regDel s id).channel_reserved = s.channel_reserved := rfl

@[simp] theorem regDel_active (s : MixerState) (id : Int) :
    (regDel s id).channel_active = s.channel_active := rfl

@[simp] theorem regDel_rnum (s : MixerState) (id : Int) :
    (regDel s id).channel_reserved_num = s.channel_reserved_num := rfl

@[simp] theorem regDel_max (s : MixerState) (id : Int) :
    (regDel s id).channel_max = s.channel_max := rfl

@[simp] theorem deactivate_channels (s : MixerState) (id j : Int) :
    (deactivate_channel s id).channels j = s.channels j := rfl

@[simp] theorem deactivate_available (s : MixerState) (id : Int) :
    (deactivate_channel s id).channel_available = s.channel_available := rfl

@[simp] theorem deactivate_reserved (s : MixerState) (id : Int) :
    (deactivate_channel s id).channel_reserved = s.channel_reserved := rfl

@[simp] theorem deactivate_active (s : MixerState) (id : Int) :
    (deactivate_channel s id).channel_active = s.channel_active.erase id := rfl

@[simp] theorem deactivate_rnum (s : MixerState) (id : Int) :
    (deactivate_channel s id).channel_reserved_num = s.channel_reserved_num := rfl

@[simp] theorem deactivate_max (s : MixerState) (id : Int) :
    (deactivate_channel s id).channel_max = s.channel_max := rfl

@[simp] theorem deactivate_buffer (s : MixerState) (id : Int) :
    (deactivate_channel s id).buffer_size_set = s.buffer_size_set := rfl

@[simp] theorem restore_channels (s : MixerState) (id j : Int) :
    (restore_channel s id).channels j = s.channels j := by
  unfold restore_channel
  split_ifs <;> rfl

@[simp] theorem restore_active (s : MixerState) (id : Int) :
    (restore_channel s id).channel_active = s.channel_active := by
  unfold restore_channel
  split_ifs <;> rfl

@[simp] theorem restore_rnum (s : MixerState) (id : Int) :
    (restore_channel s id).channel_reserved_num = s.channel_reserved_num := by
  unfold restore_channel
  split_ifs <;> rfl

@[simp] theorem restore_max (s : MixerState) (id : Int) :
    (restore_channel s id).channel_max = s.channel_max := by
  unfold restore_channel
  split_ifs <;> rfl

@[simp] theorem restore_buffer (s : MixerState) (id : Int) :
    (restore_channel s id).buffer_size_set = s.buffer_size_set := by
  unfold restore_channel
  split_ifs <;> rfl

theorem restore_avail_gt {s : MixerState} {id : Int}
    (hr : s.channel_reserved_num - 1 < id) :
    (restore_channel s id).channel_available = s.channel_available ++ [id] := by
  unfold restore_channel
  rw [if_pos hr]

theorem restore_res_gt {s : MixerState} {id : Int}
    (hr : s.channel_reserved_num - 1 < id) :
    (restore_channel s id).channel_reserved = s.channel_reserved := by
  unfold restore_channel
  rw [if_pos hr]

theorem restore_avail_le {s : MixerState} {id : Int}
    (hr : ¬ s.channel_reserved_num - 1 < id) :
    (restore_channel s id).channel_available = s.channel_available := by
  unfold restore_channel
  rw [if_neg hr]
  split_ifs <;> rfl

theorem restore_res_le {s : MixerState} {id : Int}
    (hr : ¬ s.channel_reserved_num - 1 < id) (h0 : (-1 : Int) < id) :
    (restore_channel s id).channel_reserved = s.channel_reserved ++ [id] := by
  unfold restore_channel
  rw [if_neg hr, if_pos h0]

theorem channel_stop_unregistered {s : MixerState} {id : Int}
    (h : s.channels id = none) : channel_stop s id = s := by
  unfold channel_stop
  rw [h]

theorem channel_stop_not_active {s : MixerState} {id : Int} {ch : ChannelState}
    (h : s.channels id = some ch) (ha : ch.active = false) :
    channel_stop s id = s := by
  unfold channel_stop
  rw [h]
  exact if_pos ha

theorem channel_stop_channels {s : MixerState} {id : Int} {ch : ChannelState}
    (h : s.channels id = some ch) (ha : ch.active = true) (j : Int) :
    (channel_stop s id).channels j
      = if j = id then some freshChannel else s.channels j := by
  unfold channel_stop
  rw [h]
  show (if ch.active = false then s else _).channels j = _
  rw [if_neg (by simp [ha])]
  rw [restore_channels]
  by_cases hj : j = id <;> simp [hj]

theorem channel_stop_active {s : MixerState} {id : Int} {ch : ChannelState}
    (h : s.channels id = some ch) (ha : ch.active = true) :
    (channel_stop s id).channel_active = s.channel_active.erase id := by
  unfold channel_stop
  rw [h]
  show (if ch.active = false then s else _).channel_active = _
  rw [if_neg (by simp [ha])]
  rw [restore_active]
  simp

theorem channel_stop_avail_gt {s : MixerState} {id : Int} {ch : ChannelState}
    (h : s.channels id = some ch) (ha : ch.active = true)
    (hr : s.channel_reserved_num - 1 < id) :
    (channel_stop s id).channel_available = s.channel_available ++ [id] := by
  unfold channel_stop
  rw [h]
  show (if ch.active = false then s else _).channel_available = _
  rw [if_neg (by simp [ha])]
  dsimp only
  unfold restore_channel
  simp only [regSet_rnum, deactivate_rnum]
  rw [if_pos hr]
  simp

theorem channel_stop_res_gt {s : MixerState} {id : Int} {ch : ChannelState}
    (h : s.channels id = some ch) (ha : ch.active = true)
    (hr : s.channel_reserved_num - 1 < id) :
    (channel_stop s id).channel_reserved = s.channel_reserved := by
  unfold channel_stop
  rw [h]
  show (if ch.active = false then s else _).channel_reserved = _
  rw [if_neg (by simp [ha])]
  dsimp only
  unfold restore_channel
  simp only [regSet_rnum, deactivate_rnum]
  rw [if_pos hr]
  simp

theorem channel_stop_avail_le {s : MixerState} {id : Int} {ch : ChannelState}
    (h : s.channels id = some ch) (ha : ch.active = true)
    (hr : ¬ s.channel_reserved_num - 1 < id) :
    (channel_stop s id).channel_available = s.channel_available := by
  unfold channel_stop
  rw [h]
  show (if ch.active = false then s else _).channel_available = _
  rw [if_neg (by simp [ha])]
  dsimp only
  unfold restore_channel
  simp only [regSet_rnum, deactivate_rnum]
  rw [if_neg hr]
  split_ifs <;> simp

theorem channel_stop_res_le {s : MixerState} {id : Int} {ch : ChannelState}
    (h : s.channels id = some ch) (ha : ch.active = true)
    (hr : ¬ s.channel_reserved_num - 1 < id) (h0 : (-1 : Int) < id) :
    (channel_stop s id).channel_reserved = s.channel_reserved ++ [id] := by
  unfold channel_stop
  rw [h]
  show (if ch.active = false then s else _).channel_reserved = _
  rw [if_neg (by simp [ha])]
  dsimp only
  unfold restore_channel
  simp only [regSet_rnum, deactivate_rnum]
  rw [if_neg hr, if_pos h0]
  simp

theorem channel_stop_rnum (s : MixerState) (id : Int) :
    (channel_stop s id).channel_reserved_num = s.channel_reserved_num := by
  unfold channel_stop
  cases h : s.channels id with
  | none => rfl
  | some ch =>
    dsimp only
    split_ifs with hact
    · rfl
    · simp

theorem channel_stop_max (s : MixerState) (id : Int) :
    (channel_stop s id).channel_max = s.channel_max := by
  unfold channel_stop
  cases h : s.channels id with
  | none => rfl
  | some ch =>
    dsimp only
    split_ifs with hact
    · rfl
    · simp

theorem channel_stop_buffer (s : MixerState) (id : Int) :
    (channel_stop s id).buffer_size_set = s.buffer_size_set := by
  unfold channel_stop
  cases h : s.channels id with
  | none => rfl
  | some ch =>
    dsimp only
    split_ifs with hact
    · rfl
    · simp

/-! ## Preservation of well-formedness -/

theorem wf_of_same_pools {s t : MixerState} (hwf : WF s)
    (hch : ∀ j, t.channels j = s.channels j)
    (hA : t.channel_available = s.channel_available)
    (hR : t.channel_reserved = s.channel_reserved)
    (hC : t.channel_active = s.channel_active)
    (hrn : t.channel_reserved_num = s.channel_reserved_num)
    (hmx : t.channel_max = s.channel_max) : WF t := by
  constructor
  · rw [hA]; exact hwf.ndA
  · rw [hR]; exact hwf.ndR
  · rw [hC]; exact hwf.ndC
  · rw [hA, hR]; exact hwf.dAR
  · rw [hA, hC]; exact hwf.dAC
  · rw [hR, hC]; exact hwf.dRC
  · intro x
    unfold inPools
    rw [hA, hR, hC, hmx]
    exact hwf.memIff x
  · rw [hR, hrn]; exact hwf.resLt
  · rw [hrn, hC, hR]; exact hwf.resConv
  · rw [hrn]; exact hwf.rnumNonneg
  · rw [hrn, hmx]; exact hwf.rnumLe
  · intro x cx hcx
    rw [hch x] at hcx
    rw [hmx]
    exact hwf.dom x cx hcx
  · intro x hx cx hcx
    rw [hA, hR] at hx
    rw [hch x] at hcx
    exact hwf.inactClean x hx cx hcx
  · intro x hx
    rw [hC] at hx
    obtain ⟨cx, hcx, hflag⟩ := hwf.actReg x hx
    exact ⟨cx, by rw [hch x]; exact hcx, hflag⟩
  · intro x cx hcx hflag
    rw [hch x] at hcx
    rw [hC]
    exact hwf.flagAct x cx hcx hflag
  · intro x cx hcx hflag
    rw [hch x] at hcx
    exact hwf.liveSound x cx hcx hflag

theorem wf_update_record {s t : MixerState} {id : Int} {rec : ChannelState}
    (hwf : WF s)
    (hch : ∀ j, t.channels j = if j = id then some rec else s.channels j)
    (hA : t.channel_available = s.channel_available)
    (hR : t.channel_reserved = s.channel_reserved)
    (hC : t.channel_active = s.channel_active)
    (hrn : t.channel_reserved_num = s.channel_reserved_num)
    (hmx : t.channel_max = s.channel_max)
    (hrange : 0 ≤ id ∧ id < s.channel_max)
    (hlive : rec.active = true ∨ rec.pause = true →
      id ∈ s.channel_active ∧ rec.sound ≠ none)
    (hclean : id ∈ s.channel_available ∨ id ∈ s.channel_reserved →
      rec.active = false ∧ rec.pause = false)
    (hact : id ∈ s.channel_active → rec.active = true ∨ rec.pause = true) :
    WF t := by
  constructor
  · rw [hA]; exact hwf.ndA
  · rw [hR]; exact hwf.ndR
  · rw [hC]; exact hwf.ndC
  · rw [hA, hR]; exact hwf.dAR
  · rw [hA, hC]; exact hwf.dAC
  · rw [hR, hC]; exact hwf.dRC
  · intro x
    unfold inPools
    rw [hA, hR, hC, hmx]
    exact hwf.memIff x
  · rw [hR, hrn]; exact hwf.resLt
  · rw [hrn, hC, hR]; exact hwf.resConv
  · rw [hrn]; exact hwf.rnumNonneg
  · rw [hrn, hmx]; exact hwf.rnumLe
  · intro x cx hcx
    rw [hch x] at hcx
    rw [hmx]
    by_cases hx : x = id
    · subst hx; exact hrange
    · rw [if_neg hx] at hcx
      exact hwf.dom x cx hcx
  · intro x hx cx hcx
    rw [hA, hR] at hx
    rw [hch x] at hcx
    by_cases hxi : x = id
    · subst hxi
      rw [if_pos rfl] at hcx
      cases hcx
      exact hclean hx
    · rw [if_neg hxi] at hcx
      exact hwf.inactClean x hx cx hcx
  · intro x hx
    rw [hC] at hx
    by_cases hxi : x = id
    · refine ⟨rec, ?_, hact (hxi ▸ hx)⟩
      rw [hch x, if_pos hxi]
    · obtain ⟨cx, hcx, hflag⟩ := hwf.actReg x hx
      refine ⟨cx, ?_, hflag⟩
      rw [hch x, if_neg hxi]
      exact hcx
  · intro x cx hcx hflag
    rw [hch x] at hcx
    rw [hC]
    by_cases hxi : x = id
    · subst hxi
      rw [if_pos rfl] at hcx
      cases hcx
      exact (hlive (Or.inl hflag)).1
    · rw [if_neg hxi] at hcx
      exact hwf.flagAct x cx hcx hflag
  · intro x cx hcx hflag
    rw [hch x] at hcx
    by_cases hxi : x = id
    · subst hxi
      rw [if_pos rfl] at hcx
      cases hcx
      exact (hlive hflag).2
    · rw [if_neg hxi] at hcx
      exact hwf.liveSound x cx hcx hflag

theorem wf_stop_avail {s t : MixerState} {id : Int}
    (hwf : WF s)
    (hid : id ∈ s.channel_active)
    (hr : s.channel_reserved_num - 1 < id)
    (hch : ∀ j, t.channels j = if j = id then some freshChannel else s.channels j)
    (hA : t.channel_available = s.channel_available ++ [id])
    (hR : t.channel_reserved = s.channel_reserved)
    (hC : t.channel_active = s.channel_active.erase id)
    (hrn : t.channel_reserved_num = s.channel_reserved_num)
    (hmx : t.channel_max = s.channel_max) : WF t := by
  have hnA : id ∉ s.channel_available := fun hx => hwf.dAC id hx hid
  have hnR : id ∉ s.channel_reserved := fun hx => hwf.dRC id hx hid
  have hrange : 0 ≤ id ∧ id < s.channel_max :=
    (hwf.memIff id).mp (Or.inr (Or.inr hid))
  constructor
  · rw [hA]; exact nodup_append_one hwf.ndA hnA
  · rw [hR]; exact hwf.ndR
  · rw [hC]; exact hwf.ndC.erase id
  · intro x hx
    rw [hA] at hx
    rw [hR]
    rcases List.mem_append.mp hx with hx | hx
    · exact hwf.dAR x hx
    · rw [List.mem_singleton] at hx
      subst hx
      exact hnR
  · intro x hx hc
    rw [hA] at hx
    rw [hC] at hc
    have hne : x ≠ id := (hwf.ndC.mem_erase_iff.mp hc).1
    have hc' : x ∈ s.channel_active := List.mem_of_mem_erase hc
    rcases List.mem_append.mp hx with hx | hx
    · exact hwf.dAC x hx hc'
    · rw [List.mem_singleton] at hx
      exact hne hx
  · intro x hx hc
    rw [hR] at hx
    rw [hC] at hc
    exact hwf.dRC x hx (List.mem_of_mem_erase hc)
  · intro x
    unfold inPools
    rw [hA, hR, hC, hmx]
    constructor
    · rintro (hx | hx | hx)
      · rcases List.mem_append.mp hx with hx | hx
        · exact (hwf.memIff x).mp (Or.inl hx)
        · rw [List.mem_singleton] at hx
          subst hx
          exact hrange
      · exact (hwf.memIff x).mp (Or.inr (Or.inl hx))
      · exact (hwf.memIff x).mp (Or.inr (Or.inr (List.mem_of_mem_erase hx)))
    · intro hx
      rcases (hwf.memIff x).mpr hx with h | h | h
      · exact Or.inl (List.mem_append.mpr (Or.inl h))
      · exact Or.inr (Or.inl h)
      · by_cases hxi : x = id
        · exact Or.inl (List.mem_append.mpr (Or.inr (by rw [List.mem_singleton]; exact hxi)))
        · exact Or.inr (Or.inr (hwf.ndC.mem_erase_iff.mpr ⟨hxi, h⟩))
  · intro x hx
    rw [hR] at hx
    rw [hrn]
    exact hwf.resLt x hx
  · intro x h0 hlt hnc
    rw [hrn] at hlt
    rw [hC] at hnc
    rw [hR]
    have hxi : x ≠ id := by omega
    have : x ∉ s.channel_active := fun hx =>
      hnc (hwf.ndC.mem_erase_iff.mpr ⟨hxi, hx⟩)
    exact hwf.resConv x h0 hlt this
  · rw [hrn]; exact hwf.rnumNonneg
  · rw [hrn, hmx]; exact hwf.rnumLe
  · intro x cx hcx
    rw [hch x] at hcx
    rw [hmx]
    by_cases hxi : x = id
    · subst hxi; exact hrange
    · rw [if_neg hxi] at hcx
      exact hwf.dom x cx hcx
  · intro x hx cx hcx
    rw [hA, hR] at hx
    rw [hch x] at hcx
    by_cases hxi : x = id
    · rw [if_pos hxi] at hcx
      cases hcx
      exact ⟨rfl, rfl⟩
    · rw [if_neg hxi] at hcx
      refine hwf.inactClean x ?_ cx hcx
      rcases hx with hx | hx
      · rcases List.mem_append.mp hx with hx | hx
        · exact Or.inl hx
        · rw [List.mem_singleton] at hx
          exact absurd hx hxi
      · exact Or.inr hx
  · intro x hx
    rw [hC] at hx
    have hne : x ≠ id := (hwf.ndC.mem_erase_iff.mp hx).1
    obtain ⟨cx, hcx, hflag⟩ := hwf.actReg x (List.mem_of_mem_erase hx)
    refine ⟨cx, ?_, hflag⟩
    rw [hch x, if_neg hne]
    exact hcx
  · intro x cx hcx hflag
    rw [hch x] at hcx
    rw [hC]
    by_cases hxi : x = id
    · rw [if_pos hxi] at hcx
      cases hcx
      cases hflag
    · rw [if_neg hxi] at hcx
      exact hwf.ndC.mem_erase_iff.mpr ⟨hxi, hwf.flagAct x cx hcx hflag⟩
  · intro x cx hcx hflag
    rw [hch x] at hcx
    by_cases hxi : x = id
    · rw [if_pos hxi] at hcx
      cases hcx
      rcases hflag with hflag | hflag <;> cases hflag
    · rw [if_neg hxi] at hcx
      exact hwf.liveSound x cx hcx hflag

theorem wf_stop_res {s t : MixerState} {id : Int}
    (hwf : WF s)
    (hid : id ∈ s.channel_active)
    (hr : ¬ s.channel_reserved_num - 1 < id)
    (hch : ∀ j, t.channels j = if j = id then some freshChannel else s.channels j)
    (hA : t.channel_available = s.channel_available)
    (hR : t.channel_reserved = s.channel_reserved ++ [id])
    (hC : t.channel_active = s.channel_active.erase id)
    (hrn : t.channel_reserved_num = s.channel_reserved_num)
    (hmx : t.channel_max = s.channel_max) : WF t := by
  have hnA : id ∉ s.channel_available := fun hx => hwf.dAC id hx hid
  have hnR : id ∉ s.channel_reserved := fun hx => hwf.dRC id hx hid
  have hrange : 0 ≤ id ∧ id < s.channel_max :=
    (hwf.memIff id).mp (Or.inr (Or.inr hid))
  constructor
  · rw [hA]; exact hwf.ndA
  · rw [hR]; exact nodup_append_one hwf.ndR hnR
  · rw [hC]; exact hwf.ndC.erase id
  · intro x hx
    rw [hA] at hx
    rw [hR]
    intro hmem
    rcases List.mem_append.mp hmem with hm | hm
    · exact hwf.dAR x hx hm
    · rw [List.mem_singleton] at hm
      subst hm
      exact hnA hx
  · intro x hx hc
    rw [hA] at hx
    rw [hC] at hc
    exact hwf.dAC x hx (List.mem_of_mem_erase hc)
  · intro x hx hc
    rw [hR] at hx
    rw [hC] at hc
    have hne : x ≠ id := (hwf.ndC.mem_erase_iff.mp hc).1
    rcases List.mem_append.mp hx with hx | hx
    · exact hwf.dRC x hx (List.mem_of_mem_erase hc)
    · rw [List.mem_singleton] at hx
      exact hne hx
  · intro x
    unfold inPools
    rw [hA, hR, hC, hmx]
    constructor
    · rintro (hx | hx | hx)
      · exact (hwf.memIff x).mp (Or.inl hx)
      · rcases List.mem_append.mp hx with hx | hx
        · exact (hwf.memIff x).mp (Or.inr (Or.inl hx))
        · rw [List.mem_singleton] at hx
          subst hx
          exact hrange
      · exact (hwf.memIff x).mp (Or.inr (Or.inr (List.mem_of_mem_erase hx)))
    · intro hx
      rcases (hwf.memIff x).mpr hx with h | h | h
      · exact Or.inl h
      · exact Or.inr (Or.inl (List.mem_append.mpr (Or.inl h)))
      · by_cases hxi : x = id
        · exact Or.inr (Or.inl (List.mem_append.mpr (Or.inr (by
            rw [List.mem_singleton]; exact hxi))))
        · exact Or.inr (Or.inr (hwf.ndC.mem_erase_iff.mpr ⟨hxi, h⟩))
  · intro x hx
    rw [hR] at hx
    rw [hrn]
    rcases List.mem_append.mp hx with hx | hx
    · exact hwf.resLt x hx
    · rw [List.mem_singleton] at hx
      subst hx
      omega
  · intro x h0 hlt hnc
    rw [hrn] at hlt
    rw [hC] at hnc
    rw [hR]
    by_cases hxi : x = id
    · exact List.mem_append.mpr (Or.inr (by rw [List.mem_singleton]; exact hxi))
    · have : x ∉ s.channel_active := fun hx =>
        hnc (hwf.ndC.mem_erase_iff.mpr ⟨hxi, hx⟩)
      exact List.mem_append.mpr (Or.inl (hwf.resConv x h0 hlt this))
  · rw [hrn]; exact hwf.rnumNonneg
  · rw [hrn, hmx]; exact hwf.rnumLe
  · intro x cx hcx
    rw [hch x] at hcx
    rw [hmx]
    by_cases hxi : x = id
    · subst hxi; exact hrange
    · rw [if_neg hxi] at hcx
      exact hwf.dom x cx hcx
  · intro x hx cx hcx
    rw [hA, hR] at hx
    rw [hch x] at hcx
    by_cases hxi : x = id
    · rw [if_pos hxi] at hcx
      cases hcx
      exact ⟨rfl, rfl⟩
    · rw [if_neg hxi] at hcx
      refine hwf.inactClean x ?_ cx hcx
      rcases hx with hx | hx
      · exact Or.inl hx
      · rcases List.mem_append.mp hx with hx | hx
        · exact Or.inr hx
        · rw [List.mem_singleton] at hx
          exact absurd hx hxi
  · intro x hx
    rw [hC] at hx
    have hne : x ≠ id := (hwf.ndC.mem_erase_iff.mp hx).1
    obtain ⟨cx, hcx, hflag⟩ := hwf.actReg x (List.mem_of_mem_erase hx)
    refine ⟨cx, ?_, hflag⟩
    rw [hch x, if_neg hne]
    exact hcx
  · intro x cx hcx hflag
    rw [hch x] at hcx
    rw [hC]
    by_cases hxi : x = id
    · rw [if_pos hxi] at hcx
      cases hcx
      cases hflag
    · rw [if_neg hxi] at hcx
      exact hwf.ndC.mem_erase_iff.mpr ⟨hxi, hwf.flagAct x cx hcx hflag⟩
  · intro x cx hcx hflag
    rw [hch x] at hcx
    by_cases hxi : x = id
    · rw [if_pos hxi] at hcx
      cases hcx
      rcases hflag with hflag | hflag <;> cases hflag
    · rw [if_neg hxi] at hcx
      exact hwf.liveSound x cx hcx hflag

theorem wf_channel_stop {s : MixerState} (hwf : WF s) (id : Int) :
    WF (channel_stop s id) := by
  cases hch : s.channels id with
  | none => rw [channel_stop_unregistered hch]; exact hwf
  | some ch =>
    cases hact : ch.active with
    | false => rw [channel_stop_not_active hch hact]; exact hwf
    | true =>
      have hid : id ∈ s.channel_active := hwf.flagAct id ch hch hact
      have hrange : 0 ≤ id ∧ id < s.channel_max :=
        (hwf.memIff id).mp (Or.inr (Or.inr hid))
      by_cases hr : s.channel_reserved_num - 1 < id
      · exact wf_stop_avail hwf hid hr (channel_stop_channels hch hact)
          (channel_stop_avail_gt hch hact hr) (channel_stop_res_gt hch hact hr)
          (channel_stop_active hch hact) (channel_stop_rnum s id)
          (channel_stop_max s id)
      · exact wf_stop_res hwf hid hr (channel_stop_channels hch hact)
          (channel_stop_avail_le hch hact hr)
          (channel_stop_res_le hch hact hr (by omega))
          (channel_stop_active hch hact) (channel_stop_rnum s id)
          (channel_stop_max s id)

theorem wf_activate_from_avail {s t : MixerState} {id : Int} {rec : ChannelState}
    (hwf : WF s)
    (hid : id ∈ s.channel_available)
    (hch : ∀ j, t.channels j = if j = id then some rec else s.channels j)
    (hA : t.channel_available = s.channel_available.erase id)
    (hR : t.channel_reserved = s.channel_reserved)
    (hC : t.channel_active = s.channel_active ++ [id])
    (hrn : t.channel_reserved_num = s.channel_reserved_num)
    (hmx : t.channel_max = s.channel_max)
    (hrec_act : rec.active = true) (hrec_pause : rec.pause = false)
    (hrec_sound : rec.sound ≠ none) : WF t := by
  have hnC : id ∉ s.channel_active := hwf.dAC id hid
  have hnR : id ∉ s.channel_reserved := hwf.dAR id hid
  have hrange : 0 ≤ id ∧ id < s.channel_max :=
    (hwf.memIff id).mp (Or.inl hid)
  constructor
  · rw [hA]; exact hwf.ndA.erase id
  · rw [hR]; exact hwf.ndR
  · rw [hC]; exact nodup_append_one hwf.ndC hnC
  · intro x hx
    rw [hA] at hx
    rw [hR]
    exact hwf.dAR x (List.mem_of_mem_erase hx)
  · intro x hx hc
    rw [hA] at hx
    rw [hC] at hc
    have hne : x ≠ id := (hwf.ndA.mem_erase_iff.mp hx).1
    rcases List.mem_append.mp hc with hc | hc
    · exact hwf.dAC x (List.mem_of_mem_erase hx) hc
    · rw [List.mem_singleton] at hc
      exact hne hc
  · intro x hx hc
    rw [hR] at hx
    rw [hC] at hc
    rcases List.mem_append.mp hc with hc | hc
    · exact hwf.dRC x hx hc
    · rw [List.mem_singleton] at hc
      subst hc
      exact hnR hx
  · intro x
    unfold inPools
    rw [hA, hR, hC, hmx]
    constructor
    · rintro (hx | hx | hx)
      · exact (hwf.memIff x).mp (Or.inl (List.mem_of_mem_erase hx))
      · exact (hwf.memIff x).mp (Or.inr (Or.inl hx))
      · rcases List.mem_append.mp hx with hx | hx
        · exact (hwf.memIff x).mp (Or.inr (Or.inr hx))
        · rw [List.mem_singleton] at hx
          subst hx
          exact hrange
    · intro hx
      rcases (hwf.memIff x).mpr hx with h | h | h
      · by_cases hxi : x = id
        · exact Or.inr (Or.inr (List.mem_append.mpr (Or.inr (by
            rw [List.mem_singleton]; exact hxi))))
        · exact Or.inl (hwf.ndA.mem_erase_iff.mpr ⟨hxi, h⟩)
      · exact Or.inr (Or.inl h)
      · exact Or.inr (Or.inr (List.mem_append.mpr (Or.inl h)))
  · intro x hx
    rw [hR] at hx
    rw [hrn]
    exact hwf.resLt x hx
  · intro x h0 hlt hnc
    rw [hrn] at hlt
    rw [hC] at hnc
    rw [hR]
    have hnc' : x ∉ s.channel_active := fun hx =>
      hnc (List.mem_append.mpr (Or.inl hx))
    exact hwf.resConv x h0 hlt hnc'
  · rw [hrn]; exact hwf.rnumNonneg
  · rw [hrn, hmx]; exact hwf.rnumLe
  · intro x cx hcx
    rw [hch x] at hcx
    rw [hmx]
    by_cases hxi : x = id
    · subst hxi; exact hrange
    · rw [if_neg hxi] at hcx
      exact hwf.dom x cx hcx
  · intro x hx cx hcx
    rw [hA, hR] at hx
    rw [hch x] at hcx
    by_cases hxi : x = id
    · exfalso
      rcases hx with hx | hx
      · exact (hwf.ndA.mem_erase_iff.mp hx).1 hxi
      · subst hxi
        exact hnR hx
    · rw [if_neg hxi] at hcx
      refine hwf.inactClean x ?_ cx hcx
      rcases hx with hx | hx
      · exact Or.inl (List.mem_of_mem_erase hx)
      · exact Or.inr hx
  · intro x hx
    rw [hC] at hx
    by_cases hxi : x = id
    · refine ⟨rec, ?_, Or.inl hrec_act⟩
      rw [hch x, if_pos hxi]
    · rcases List.mem_append.mp hx with hx | hx
      · obtain ⟨cx, hcx, hflag⟩ := hwf.actReg x hx
        refine ⟨cx, ?_, hflag⟩
        rw [hch x, if_neg hxi]
        exact hcx
      · rw [List.mem_singleton] at hx
        exact absurd hx hxi
  · intro x cx hcx hflag
    rw [hch x] at hcx
    rw [hC]
    by_cases hxi : x = id
    · exact List.mem_append.mpr (Or.inr (by rw [List.mem_singleton]; exact hxi))
    · rw [if_neg hxi] at hcx
      exact List.mem_append.mpr (Or.inl (hwf.flagAct x cx hcx hflag))
  · intro x cx hcx hflag
    rw [hch x] at hcx
    by_cases hxi : x = id
    · rw [if_pos hxi] at hcx
      cases hcx
      exact hrec_sound
    · rw [if_neg hxi] at hcx
      exact hwf.liveSound x cx hcx hflag

theorem wf_activate_from_res {s t : MixerState} {id : Int} {rec : ChannelState}
    (hwf : WF s)
    (hid : id ∈ s.channel_reserved)
    (hch : ∀ j, t.channels j = if j = id then some rec else s.channels j)
    (hA : t.channel_available = s.channel_available)
    (hR : t.channel_reserved = s.channel_reserved.erase id)
    (hC : t.channel_active = s.channel_active ++ [id])
    (hrn : t.channel_reserved_num = s.channel_reserved_num)
    (hmx : t.channel_max = s.channel_max)
    (hrec_act : rec.active = true) (hrec_pause : rec.pause = false)
    (hrec_sound : rec.sound ≠ none) : WF t := by
  have hnC : id ∉ s.channel_active := hwf.dRC id hid
  have hnA : id ∉ s.channel_available := fun hx => hwf.dAR id hx hid
  have hrange : 0 ≤ id ∧ id < s.channel_max :=
    (hwf.memIff id).mp (Or.inr (Or.inl hid))
  constructor
  · rw [hA]; exact hwf.ndA
  · rw [hR]; exact hwf.ndR.erase id
  · rw [hC]; exact nodup_append_one hwf.ndC hnC
  · intro x hx
    rw [hA] at hx
    rw [hR]
    intro hm
    exact hwf.dAR x hx (List.mem_of_mem_erase hm)
  · intro x hx hc
    rw [hA] at hx
    rw [hC] at hc
    rcases List.mem_append.mp hc with hc | hc
    · exact hwf.dAC x hx hc
    · rw [List.mem_singleton] at hc
      subst hc
      exact hnA hx
  · intro x hx hc
    rw [hR] at hx
    rw [hC] at hc
    have hne : x ≠ id := (hwf.ndR.mem_erase_iff.mp hx).1
    rcases List.mem_append.mp hc with hc | hc
    · exact hwf.dRC x (List.mem_of_mem_erase hx) hc
    · rw [List.mem_singleton] at hc
      exact hne hc
  · intro x
    unfold inPools
    rw [hA, hR, hC, hmx]
    constructor
    · rintro (hx | hx | hx)
      · exact (hwf.memIff x).mp (Or.inl hx)
      · exact (hwf.memIff x).mp (Or.inr (Or.inl (List.mem_of_mem_erase hx)))
      · rcases List.mem_append.mp hx with hx | hx
        · exact (hwf.memIff x).mp (Or.inr (Or.inr hx))
        · rw [List.mem_singleton] at hx
          subst hx
          exact hrange
    · intro hx
      rcases (hwf.memIff x).mpr hx with h | h | h
      · exact Or.inl h
      · by_cases hxi : x = id
        · exact Or.inr (Or.inr (List.mem_append.mpr (Or.inr (by
            rw [List.mem_singleton]; exact hxi))))
        · exact Or.inr (Or.inl (hwf.ndR.mem_erase_iff.mpr ⟨hxi, h⟩))
      · exact Or.inr (Or.inr (List.mem_append.mpr (Or.inl h)))
  · intro x hx
    rw [hR] at hx
    rw [hrn]
    exact hwf.resLt x (List.mem_of_mem_erase hx)
  · intro x h0 hlt hnc
    rw [hrn] at hlt
    rw [hC] at hnc
    rw [hR]
    by_cases hxi : x = id
    · exfalso
      subst hxi
      exact hnc (List.mem_append.mpr (Or.inr (by rw [List.mem_singleton])))
    · have hnc' : x ∉ s.channel_active := fun hx =>
        hnc (List.mem_append.mpr (Or.inl hx))
      exact hwf.ndR.mem_erase_iff.mpr ⟨hxi, hwf.resConv x h0 hlt hnc'⟩
  · rw [hrn]; exact hwf.rnumNonneg
  · rw [hrn, hmx]; exact hwf.rnumLe
  · intro x cx hcx
    rw [hch x] at hcx
    rw [hmx]
    by_cases hxi : x = id
    · subst hxi; exact hrange
    · rw [if_neg hxi] at hcx
      exact hwf.dom x cx hcx
  · intro x hx cx hcx
    rw [hA, hR] at hx
    rw [hch x] at hcx
    by_cases hxi : x = id
    · exfalso
      rcases hx with hx | hx
      · subst hxi
        exact hnA hx
      · exact (hwf.ndR.mem_erase_iff.mp hx).1 hxi
    · rw [if_neg hxi] at hcx
      refine hwf.inactClean x ?_ cx hcx
      rcases hx with hx | hx
      · exact Or.inl hx
      · exact Or.inr (List.mem_of_mem_erase hx)
  · intro x hx
    rw [hC] at hx
    by_cases hxi : x = id
    · refine ⟨rec, ?_, Or.inl hrec_act⟩
      rw [hch x, if_pos hxi]
    · rcases List.mem_append.mp hx with hx | hx
      · obtain ⟨cx, hcx, hflag⟩ := hwf.actReg x hx
        refine ⟨cx, ?_, hflag⟩
        rw [hch x, if_neg hxi]
        exact hcx
      · rw [List.mem_singleton] at hx
        exact absurd hx hxi
  · intro x cx hcx hflag
    rw [hch x] at hcx
    rw [hC]
    by_cases hxi : x = id
    · exact List.mem_append.mpr (Or.inr (by rw [List.mem_singleton]; exact hxi))
    · rw [if_neg hxi] at hcx
      exact List.mem_append.mpr (Or.inl (hwf.flagAct x cx hcx hflag))
  · intro x cx hcx hflag
    rw [hch x] at hcx
    by_cases hxi : x = id
    · rw [if_pos hxi] at hcx
      cases hcx
      exact hrec_sound
    · rw [if_neg hxi] at hcx
      exact hwf.liveSound x cx hcx hflag

theorem wf_perm_pools {s t : MixerState} (hwf : WF s)
    (hA : t.channel_available.Perm s.channel_available)
    (hR : t.channel_reserved.Perm s.channel_reserved)
    (hC : t.channel_active = s.channel_active)
    (hch : ∀ j, t.channels j = s.channels j)
    (hrn : t.channel_reserved_num = s.channel_reserved_num)
    (hmx : t.channel_max = s.channel_max) : WF t := by
  constructor
  · exact hA.nodup_iff.mpr hwf.ndA
  · exact hR.nodup_iff.mpr hwf.ndR
  · rw [hC]; exact hwf.ndC
  · intro x hx
    rw [hA.mem_iff] at hx
    rw [hR.mem_iff]
    exact hwf.dAR x hx
  · intro x hx
    rw [hA.mem_iff] at hx
    rw [hC]
    exact hwf.dAC x hx
  · intro x hx
    rw [hR.mem_iff] at hx
    rw [hC]
    exact hwf.dRC x hx
  · intro x
    unfold inPools
    rw [hA.mem_iff, hR.mem_iff, hC, hmx]
    exact hwf.memIff x
  · intro x hx
    rw [hR.mem_iff] at hx
    rw [hrn]
    exact hwf.resLt x hx
  · intro x h0 hlt hnc
    rw [hrn] at hlt
    rw [hC] at hnc
    rw [hR.mem_iff]
    exact hwf.resConv x h0 hlt hnc
  · rw [hrn]; exact hwf.rnumNonneg
  · rw [hrn, hmx]; exact hwf.rnumLe
  · intro x cx hcx
    rw [hch x] at hcx
    rw [hmx]
    exact hwf.dom x cx hcx
  · intro x hx cx hcx
    rw [hA.mem_iff, hR.mem_iff] at hx
    rw [hch x] at hcx
    exact hwf.inactClean x hx cx hcx
  · intro x hx
    rw [hC] at hx
    obtain ⟨cx, hcx, hflag⟩ := hwf.actReg x hx
    exact ⟨cx, by rw [hch x]; exact hcx, hflag⟩
  · intro x cx hcx hflag
    rw [hch x] at hcx
    rw [hC]
    exact hwf.flagAct x cx hcx hflag
  · intro x cx hcx hflag
    rw [hch x] at hcx
    exact hwf.liveSound x cx hcx hflag

theorem wf_channel_pause {s : MixerState} (hwf : WF s) (id : Int) :
    WF (channel_pause s id) := by
  unfold channel_pause
  cases hch : s.channels id with
  | none => exact hwf
  | some ch =>
    dsimp only
    split_ifs with hact
    · refine wf_update_record hwf (fun j => rfl) rfl rfl rfl rfl rfl
        (hwf.dom id ch hch) ?_ ?_ ?_
      · intro _
        exact ⟨hwf.flagAct id ch hch hact, hwf.liveSound id ch hch (Or.inl hact)⟩
      · intro hmem
        have := (hwf.inactClean id hmem ch hch).1
        rw [hact] at this
        cases this
      · intro _
        exact Or.inr rfl
    · exact hwf

theorem wf_channel_unpause {s : MixerState} (hwf : WF s) (id : Int) :
    WF (channel_unpause s id) := by
  unfold channel_unpause
  cases hch : s.channels id with
  | none => exact hwf
  | some ch =>
    dsimp only
    split_ifs with hp
    · have hmem : id ∈ s.channel_active := by
        by_contra hnc
        have hrange := hwf.dom id ch hch
        have hin : inPools s id := (hwf.memIff id).mpr hrange
        rcases hin with hx | hx | hx
        · have := (hwf.inactClean id (Or.inl hx) ch hch).2
          rw [hp] at this
          cases this
        · have := (hwf.inactClean id (Or.inr hx) ch hch).2
          rw [hp] at this
          cases this
        · exact hnc hx
      refine wf_update_record hwf (fun j => rfl) rfl rfl rfl rfl rfl
        (hwf.dom id ch hch) ?_ ?_ ?_
      · intro _
        exact ⟨hmem, hwf.liveSound id ch hch (Or.inr hp)⟩
      · intro hmemi
        exact absurd hmem (by
          rcases hmemi with hx | hx
          · exact hwf.dAC id hx
          · exact hwf.dRC id hx)
      · intro _
        exact Or.inl rfl
    · exact hwf

theorem wf_channel_set_volume {s : MixerState} (hwf : WF s) (id : Int)
    (v : Rat) (v2 : Option Rat) : WF (channel_set_volume s id v v2) := by
  unfold channel_set_volume
  cases hch : s.channels id with
  | none => exact hwf
  | some ch =>
    dsimp only
    have hmain : ∀ rec : ChannelState, rec.active = ch.active →
        rec.pause = ch.pause → rec.sound = ch.sound →
        WF (regSet s id rec) := by
      intro rec ha hp hs
      refine wf_update_record hwf (fun j => rfl) rfl rfl rfl rfl rfl
        (hwf.dom id ch hch) ?_ ?_ ?_
      · intro hflag
        rw [ha, hp] at hflag
        refine ⟨?_, by rw [hs]; exact hwf.liveSound id ch hch hflag⟩
        rcases hflag with hflag | hflag
        · exact hwf.flagAct id ch hch hflag
        · by_contra hnc
          have hrange := hwf.dom id ch hch
          rcases (hwf.memIff id).mpr hrange with hx | hx | hx
          · have := (hwf.inactClean id (Or.inl hx) ch hch).2
            rw [hflag] at this
            cases this
          · have := (hwf.inactClean id (Or.inr hx) ch hch).2
            rw [hflag] at this
            cases this
          · exact hnc hx
      · intro hmem
        have := hwf.inactClean id hmem ch hch
        rw [ha, hp]
        exact this
      · intro hmem
        obtain ⟨cx, hcx, hflag⟩ := hwf.actReg id hmem
        rw [hch] at hcx
        cases hcx
        rw [ha, hp]
        exact hflag
    cases v2 with
    | none => exact hmain _ rfl rfl rfl
    | some w =>
      dsimp only
      split_ifs with hw
      · exact hmain _ rfl rfl rfl
      · exact hmain _ rfl rfl rfl

theorem wf_foldl {f : MixerState → Int → MixerState}
    (hf : ∀ s x, WF s → WF (f s x)) :
    ∀ (l : List Int) (s : MixerState), WF s → WF (l.foldl f s) := by
  intro l
  induction l with
  | nil => intro s hs; exact hs
  | cons x xs ih =>
    intro s hs
    exact ih (f s x) (hf s x hs)

theorem wf_mixer_pause {s : MixerState} (hwf : WF s) : WF (mixer_pause s) := by
  unfold mixer_pause
  refine wf_foldl ?_ s.channel_active s hwf
  intro t x ht
  split_ifs
  · exact wf_channel_pause ht x
  · exact ht

theorem wf_mixer_unpause {s : MixerState} (hwf : WF s) : WF (mixer_unpause s) := by
  unfold mixer_unpause
  refine wf_foldl ?_ s.channel_active s hwf
  intro t x ht
  split_ifs
  · exact wf_channel_unpause ht x
  · exact ht

theorem wf_mixer_init {s : MixerState} (hwf : WF s) (ok : Bool)
    (f sz c b : Int) : WF (mixer_init s ok f sz c b).2 := by
  unfold mixer_init
  split_ifs <;>
    exact wf_of_same_pools hwf (fun j => rfl) rfl rfl rfl rfl rfl

theorem force_scan_fst_mem {rnum : Int} {l : List Int} {x : Int}
    (h : (force_scan rnum l).1 = some x) : x ∈ l := by
  induction l with
  | nil => cases h
  | cons id rest ih =>
    simp only [force_scan] at h
    split_ifs at h with h1 h2
    · cases h
      exact List.mem_cons_self _ _
    · exact List.mem_cons_of_mem _ (ih h)
    · exact List.mem_cons_of_mem _ (ih h)

theorem force_scan_snd_mem {rnum : Int} {l : List Int} {x : Int}
    (h : (force_scan rnum l).2 = some x) : x ∈ l := by
  induction l with
  | nil => cases h
  | cons id rest ih =>
    simp only [force_scan] at h
    split_ifs at h with h1 h2
    all_goals first
      | (cases h; exact List.mem_cons_self _ _)
      | cases h
      | exact List.mem_cons_of_mem _ (ih h)

theorem wf_register_fresh {s : MixerState} (hwf : WF s) {id : Int}
    (hunreg : s.channels id = none)
    (hrange : 0 ≤ id ∧ id < s.channel_max) :
    WF (regSet s id freshChannel) := by
  refine wf_update_record hwf (fun j => rfl) rfl rfl rfl rfl rfl hrange ?_ ?_ ?_
  · intro hflag
    rcases hflag with hflag | hflag <;> cases hflag
  · intro _
    exact ⟨rfl, rfl⟩
  · intro hmem
    obtain ⟨cx, hcx, _⟩ := hwf.actReg id hmem
    rw [hunreg] at hcx
    cases hcx

theorem wf_sound_play {s : MixerState} (hwf : WF s)
    (hbuf : s.buffer_size_set = true) (snd : Snd) (loops : Int) :
    WF (sound_play s snd loops).2 := by
  unfold sound_play retrieve_channel
  cases havail : s.channel_available with
  | nil => exact hwf
  | cons id rest =>
    have hid : id ∈ s.channel_available := by
      rw [havail]
      exact List.mem_cons_self id rest
    have hrange : 0 ≤ id ∧ id < s.channel_max := (hwf.memIff id).mp (Or.inl hid)
    have herase : s.channel_available.erase id = rest := by
      rw [havail]
      exact List.erase_cons_head id rest
    have hpause : ∀ ch : ChannelState, s.channels id = some ch → ch.pause = false :=
      fun ch hch => (hwf.inactClean id (Or.inl hid) ch hch).2
    dsimp only
    unfold get_channel register_channel
    cases hch : s.channels id with
    | some ch =>
      dsimp only
      unfold channel_play_priv
      dsimp only
      rw [hch]
      dsimp only
      refine wf_activate_from_avail hwf hid (fun j => rfl) ?_ rfl rfl rfl rfl
        rfl ?_ ?_
      · exact herase.symm
      · exact (hwf.inactClean id (Or.inl hid) ch hch).2
      · simp
    | none =>
      dsimp only
      rw [if_neg (by rw [hbuf]; simp), if_pos hrange.2]
      dsimp only
      unfold channel_play_priv
      dsimp only
      simp only [regSet_channels]
      refine @wf_activate_from_avail s _ id
        { freshChannel with sound := some snd, stream := some snd.chunks
                            loops := loops, active := true }
        hwf hid (fun j => ?_) ?_ rfl rfl rfl rfl rfl rfl (by simp)
      · by_cases hj : j = id <;> simp [hj]
      · exact herase.symm

theorem wf_get_channel {s t : MixerState} (hwf : WF s) {id : Int}
    (h0 : 0 ≤ id) (h : get_channel s id = some t) : WF t := by
  unfold get_channel register_channel at h
  cases hch : s.channels id with
  | some ch =>
    rw [hch] at h
    cases h
    exact hwf
  | none =>
    rw [hch] at h
    dsimp only at h
    split_ifs at h with h1 h2
    all_goals first
      | (cases h; exact wf_register_fresh hwf hch ⟨h0, h2⟩)
      | cases h

theorem wf_force_core {s : MixerState} (hwf : WF s) (force : Bool) :
    WF (if force = false then ((some none : Option (Option Int)), s)
        else
          let scan := force_scan s.channel_reserved_num s.channel_active
          let channel := match scan.1 with
            | some id => id
            | none => match scan.2 with
              | some id => id
              | none => 0
          match get_channel s channel with
          | some s2 => ((some (some channel) : Option (Option Int)), s2)
          | none => ((none : Option (Option Int)), s)).2 := by
  split_ifs with hf
  · exact hwf
  · dsimp only
    cases hscan1 : (force_scan s.channel_reserved_num s.channel_active).1 with
    | some x =>
      have hx : x ∈ s.channel_active := force_scan_fst_mem hscan1
      have h0 : (0 : Int) ≤ x := ((hwf.memIff x).mp (Or.inr (Or.inr hx))).1
      cases hg : get_channel s x with
      | some s2 => exact wf_get_channel hwf h0 hg
      | none => exact hwf
    | none =>
      cases hscan2 : (force_scan s.channel_reserved_num s.channel_active).2 with
      | some y =>
        have hy : y ∈ s.channel_active := force_scan_snd_mem hscan2
        have h0 : (0 : Int) ≤ y := ((hwf.memIff y).mp (Or.inr (Or.inr hy))).1
        cases hg : get_channel s y with
        | some s2 => exact wf_get_channel hwf h0 hg
        | none => exact hwf
      | none =>
        cases hg : get_channel s 0 with
        | some s2 => exact wf_get_channel hwf le_rfl hg
        | none => exact hwf

theorem wf_find_channel {s : MixerState} (hwf : WF s) (force : Bool) :
    WF (find_channel s force).2 := by
  unfold find_channel
  cases havail : s.channel_available with
  | cons id rest =>
    dsimp only
    have hid : id ∈ s.channel_available := by
      rw [havail]
      exact List.mem_cons_self id rest
    have h0 : (0 : Int) ≤ id := ((hwf.memIff id).mp (Or.inl hid)).1
    have hperm : (rest ++ [id]).Perm s.channel_available := by
      rw [havail]
      exact List.perm_append_singleton id rest
    have hwfr : WF { s with channel_available := rest ++ [id] } :=
      wf_perm_pools hwf hperm (List.Perm.refl _) rfl (fun j => rfl) rfl rfl
    cases hg : get_channel { s with channel_available := rest ++ [id] } id with
    | some s2 => exact wf_get_channel hwfr h0 hg
    | none => exact hwfr
  | nil =>
    dsimp only
    by_cases hrn0 : s.channel_reserved_num ≠ 0
    · rw [if_pos hrn0]
      cases hres : s.channel_reserved with
      | cons id rest =>
        dsimp only
        have hid : id ∈ s.channel_reserved := by
          rw [hres]
          exact List.mem_cons_self id rest
        have h0 : (0 : Int) ≤ id := ((hwf.memIff id).mp (Or.inr (Or.inl hid))).1
        have hperm : (rest ++ [id]).Perm s.channel_reserved := by
          rw [hres]
          exact List.perm_append_singleton id rest
        have hpermA : ([] : List Int).Perm s.channel_available := by
          rw [havail]
        have hwfr : WF { s with channel_available := ([] : List Int)
                                channel_reserved := rest ++ [id] } :=
          wf_perm_pools hwf hpermA hperm rfl (fun j => rfl) rfl rfl
        cases hg : get_channel { s with channel_available := ([] : List Int)
                                        channel_reserved := rest ++ [id] } id with
        | some s2 => exact wf_get_channel hwfr h0 hg
        | none => exact hwfr
      | nil =>
        dsimp only
        exact wf_force_core hwf force
    · rw [if_neg hrn0]
      dsimp only
      exact wf_force_core hwf force

@[simp] theorem set_volume_available (s : MixerState) (id : Int) (v : Rat)
    (v2 : Option Rat) :
    (channel_set_volume s id v v2).channel_available = s.channel_available := by
  unfold channel_set_volume
  cases s.channels id with
  | none => rfl
  | some ch =>
    dsimp only
    cases v2 with
    | none => rfl
    | some w =>
      dsimp only
      split_ifs <;> rfl

@[simp] theorem set_volume_reserved (s : MixerState) (id : Int) (v : Rat)
    (v2 : Option Rat) :
    (channel_set_volume s id v v2).channel_reserved = s.channel_reserved := by
  unfold channel_set_volume
  cases s.channels id with
  | none => rfl
  | some ch =>
    dsimp only
    cases v2 with
    | none => rfl
    | some w =>
      dsimp only
      split_ifs <;> rfl

@[simp] theorem set_volume_active (s : MixerState) (id : Int) (v : Rat)
    (v2 : Option Rat) :
    (channel_set_volume s id v v2).channel_active = s.channel_active := by
  unfold channel_set_volume
  cases s.channels id with
  | none => rfl
  | some ch =>
    dsimp only
    cases v2 with
    | none => rfl
    | some w =>
      dsimp only
      split_ifs <;> rfl

@[simp] theorem set_volume_rnum (s : MixerState) (id : Int) (v : Rat)
    (v2 : Option Rat) :
    (channel_set_volume s id v v2).channel_reserved_num = s.channel_reserved_num := by
  unfold channel_set_volume
  cases s.channels id with
  | none => rfl
  | some ch =>
    dsimp only
    cases v2 with
    | none => rfl
    | some w =>
      dsimp only
      split_ifs <;> rfl

@[simp] theorem set_volume_max (s : MixerState) (id : Int) (v : Rat)
    (v2 : Option Rat) :
    (channel_set_volume s id v v2).channel_max = s.channel_max := by
  unfold channel_set_volume
  cases s.channels id with
  | none => rfl
  | some ch =>
    dsimp only
    cases v2 with
    | none => rfl
    | some w =>
      dsimp only
      split_ifs <;> rfl

theorem set_volume_channels_flags {s : MixerState} {id : Int} {ch : ChannelState}
    (hch : s.channels id = some ch) (v : Rat) (v2 : Option Rat) :
    ∃ rec, (channel_set_volume s id v v2).channels id = some rec ∧
      rec.active = ch.active ∧ rec.pause = ch.pause ∧ rec.sound = ch.sound := by
  unfold channel_set_volume
  rw [hch]
  dsimp only
  cases v2 with
  | none =>
    exact ⟨{ ch with lvolume := clampVol v, rvolume := clampVol v
                     volume := clampVol v }, by simp, rfl, rfl, rfl⟩
  | some w =>
    dsimp only
    split_ifs with hw
    · exact ⟨{ ch with lvolume := clampVol v, rvolume := clampVol w },
        by simp, rfl, rfl, rfl⟩
    · exact ⟨{ ch with lvolume := clampVol v, rvolume := clampVol v
                       volume := clampVol v }, by simp, rfl, rfl, rfl⟩

theorem set_volume_channels_other {s : MixerState} (id : Int) (v : Rat)
    (v2 : Option Rat) (j : Int) (hj : j ≠ id) :
    (channel_set_volume s id v v2).channels j = s.channels j := by
  unfold channel_set_volume
  cases s.channels id with
  | none => rfl
  | some ch =>
    dsimp only
    cases v2 with
    | none => simp [hj]
    | some w =>
      dsimp only
      split_ifs <;> simp [hj]

theorem wf_channel_play {s : MixerState} (hwf : WF s) {id : Int}
    {ch : ChannelState} (hch : s.channels id = some ch) (hp : ch.pause = false)
    (snd : Snd) (loops : Int) : WF (channel_play s id snd loops) := by
  have hrange := hwf.dom id ch hch
  unfold channel_play
  rw [hch]
  dsimp only
  cases hsnd : ch.sound with
  | none =>
    have hact : ch.active = false := by
      cases hactb : ch.active
      · rfl
      · exact absurd hsnd (hwf.liveSound id ch hch (Or.inl hactb))
    have hnc : id ∉ s.channel_active := by
      intro hmem
      obtain ⟨cx, hcx, hflag⟩ := hwf.actReg id hmem
      rw [hch] at hcx
      cases hcx
      rcases hflag with hf | hf
      · rw [hact] at hf
        cases hf
      · rw [hp] at hf
        cases hf
    unfold channel_play_priv
    rw [hch]
    dsimp only
    unfold activate_channel
    dsimp only
    simp only [regSet_rnum, regSet_available, regSet_reserved, regSet_active]
    by_cases hr : id > s.channel_reserved_num - 1
    · rw [if_pos hr]
      have hid' : id ∈ s.channel_available := by
        rcases (hwf.memIff id).mpr hrange with hx | hx | hx
        · exact hx
        · exact absurd (hwf.resLt id hx) (by omega)
        · exact absurd hx hnc
      refine wf_activate_from_avail hwf hid' (fun j => rfl) rfl rfl rfl rfl rfl
        rfl ?_ ?_
      · exact hp
      · simp
    · rw [if_neg hr]
      have hid' : id ∈ s.channel_reserved :=
        hwf.resConv id hrange.1 (by omega) hnc
      refine wf_activate_from_res hwf hid' (fun j => rfl) rfl rfl rfl rfl rfl
        rfl ?_ ?_
      · exact hp
      · simp
  | some snd0 =>
    dsimp only
    have hwf2 : WF (channel_stop s id) := wf_channel_stop hwf id
    have hwf3 : WF (channel_set_volume (channel_stop s id) id ch.lvolume
        (some ch.rvolume)) :=
      wf_channel_set_volume hwf2 id ch.lvolume (some ch.rvolume)
    cases hact : ch.active with
    | true =>
      have hstch : (channel_stop s id).channels id = some freshChannel := by
        rw [channel_stop_channels hch hact]
        simp
      obtain ⟨rec3, hs3ch, hr3a, hr3p, hr3s⟩ :=
        set_volume_channels_flags hstch ch.lvolume (some ch.rvolume)
      unfold channel_play_priv
      rw [hs3ch]
      dsimp only
      unfold activate_channel
      dsimp only
      simp only [regSet_rnum, regSet_available, regSet_reserved, regSet_active,
        set_volume_rnum, set_volume_available, set_volume_reserved,
        set_volume_active, channel_stop_rnum]
      by_cases hr : id > s.channel_reserved_num - 1
      · rw [if_pos hr]
        rw [channel_stop_avail_gt hch hact hr, channel_stop_res_gt hch hact hr]
        have hid3 : id ∈ (channel_set_volume (channel_stop s id) id ch.lvolume
            (some ch.rvolume)).channel_available := by
          simp only [set_volume_available]
          rw [channel_stop_avail_gt hch hact hr]
          exact List.mem_append.mpr (Or.inr (List.mem_singleton.mpr rfl))
        refine wf_activate_from_avail hwf3 hid3 (fun j => rfl) ?_ ?_ ?_ ?_ ?_
          rfl ?_ ?_
        · simp only [set_volume_available]
          rw [channel_stop_avail_gt hch hact hr]
        · simp only [set_volume_reserved]
          rw [channel_stop_res_gt hch hact hr]
        · simp only [set_volume_active]
        · simp only [regSet_rnum, set_volume_rnum, channel_stop_rnum]
        · simp only [regSet_max, set_volume_max, channel_stop_max]
        · rw [hr3p]
          simp [freshChannel]
        · simp
      · rw [if_neg hr]
        rw [channel_stop_avail_le hch hact hr,
          channel_stop_res_le hch hact hr (by omega)]
        have hid3 : id ∈ (channel_set_volume (channel_stop s id) id ch.lvolume
            (some ch.rvolume)).channel_reserved := by
          simp only [set_volume_reserved]
          rw [channel_stop_res_le hch hact hr (by omega)]
          exact List.mem_append.mpr (Or.inr (List.mem_singleton.mpr rfl))
        refine wf_activate_from_res hwf3 hid3 (fun j => rfl) ?_ ?_ ?_ ?_ ?_
          rfl ?_ ?_
        · simp only [set_volume_available]
          rw [channel_stop_avail_le hch hact hr]
        · simp only [set_volume_reserved]
          rw [channel_stop_res_le hch hact hr (by omega)]
        · simp only [set_volume_active]
        · simp only [regSet_rnum, set_volume_rnum, channel_stop_rnum]
        · simp only [regSet_max, set_volume_max, channel_stop_max]
        · rw [hr3p]
          simp [freshChannel]
        · simp
    | false =>
      rw [channel_stop_not_active hch hact]
      have hnc : id ∉ s.channel_active := by
        intro hmem
        obtain ⟨cx, hcx, hflag⟩ := hwf.actReg id hmem
        rw [hch] at hcx
        cases hcx
        rcases hflag with hf | hf
        · rw [hact] at hf
          cases hf
        · rw [hp] at hf
          cases hf
      obtain ⟨rec3, hs3ch, hr3a, hr3p, hr3s⟩ :=
        set_volume_channels_flags hch ch.lvolume (some ch.rvolume)
      have hwf3' : WF (channel_set_volume s id ch.lvolume (some ch.rvolume)) :=
        wf_channel_set_volume hwf id ch.lvolume (some ch.rvolume)
      unfold channel_play_priv
      rw [hs3ch]
      dsimp only
      unfold activate_channel
      dsimp only
      simp only [regSet_rnum, regSet_available, regSet_reserved, regSet_active,
        set_volume_rnum, set_volume_available, set_volume_reserved,
        set_volume_active]
      by_cases hr : id > s.channel_reserved_num - 1
      · rw [if_pos hr]
        have hid' : id ∈ s.channel_available := by
          rcases (hwf.memIff id).mpr hrange with hx | hx | hx
          · exact hx
          · exact absurd (hwf.resLt id hx) (by omega)
          · exact absurd hx hnc
        have hid3 : id ∈ (channel_set_volume s id ch.lvolume
            (some ch.rvolume)).channel_available := by
          simp only [set_volume_available]
          exact hid'
        refine wf_activate_from_avail hwf3' hid3 (fun j => rfl) ?_ ?_ ?_ ?_ ?_
          rfl ?_ ?_
        · simp only [set_volume_available]
        · simp only [set_volume_reserved]
        · simp only [set_volume_active]
        · simp only [regSet_rnum, set_volume_rnum]
        · simp only [regSet_max, set_volume_max]
        · rw [hr3p]
          exact hp
        · simp
      · rw [if_neg hr]
        have hid' : id ∈ s.channel_reserved :=
          hwf.resConv id hrange.1 (by omega) hnc
        have hid3 : id ∈ (channel_set_volume s id ch.lvolume
            (some ch.rvolume)).channel_reserved := by
          simp only [set_volume_reserved]
          exact hid'
        refine wf_activate_from_res hwf3' hid3 (fun j => rfl) ?_ ?_ ?_ ?_ ?_
          rfl ?_ ?_
        · simp only [set_volume_available]
        · simp only [set_volume_reserved]
        · simp only [set_volume_active]
        · simp only [regSet_rnum, set_volume_rnum]
        · simp only [regSet_max, set_volume_max]
        · rw [hr3p]
          exact hp
        · simp

/-! ## The reserved and capacity folds -/

theorem set_reserved_fold (L : List Int) :
    ∀ s : MixerState,
      (L.foldl (fun s id =>
        { s with channel_reserved := s.channel_reserved ++ [id]
                 channel_available := s.channel_available.erase id }) s)
      = { s with channel_reserved := s.channel_reserved ++ L
                 channel_available := s.channel_available.diff L } := by
  induction L with
  | nil =>
    intro s
    simp [List.diff_nil]
  | cons a rest ih =>
    intro s
    rw [List.foldl_cons, ih]
    simp [List.diff_cons]

theorem set_reserved_spec (s : MixerState) (r : Int) :
    set_reserved s r =
      (let m := if r > s.channel_max then s.channel_max
                else if r < 0 then 0 else r
       { s with channel_reserved_num := m
                channel_reserved := intRange 0 m
                channel_available := s.channel_available.diff (intRange 0 m) }) := by
  unfold set_reserved
  dsimp only
  rw [set_reserved_fold]
  simp

theorem wf_max_nonneg {s : MixerState} (hwf : WF s) : 0 ≤ s.channel_max := by
  have h1 := hwf.rnumNonneg
  have h2 := hwf.rnumLe
  omega

theorem wf_set_reserved {s : MixerState} (hwf : WF s) (r : Int)
    (hact : ∀ id ∈ s.channel_active,
      ¬ id < (if r > s.channel_max then s.channel_max
              else if r < 0 then 0 else r))
    (hres : ∀ id ∈ s.channel_reserved,
      id < (if r > s.channel_max then s.channel_max
            else if r < 0 then 0 else r)) :
    WF (set_reserved s r) := by
  rw [set_reserved_spec]
  dsimp only
  set m := if r > s.channel_max then s.channel_max
           else if r < 0 then 0 else r with hm
  have hmax0 : 0 ≤ s.channel_max := wf_max_nonneg hwf
  have hm0 : 0 ≤ m := by
    rw [hm]
    split_ifs <;> omega
  have hmle : m ≤ s.channel_max := by
    rw [hm]
    split_ifs <;> omega
  constructor
  · exact hwf.ndA.diff
  · exact nodup_intRange
  · exact hwf.ndC
  · intro x hx
    rw [hwf.ndA.mem_diff_iff] at hx
    rw [mem_intRange]
    intro hxr
    exact hx.2 (by rw [mem_intRange]; exact hxr)
  · intro x hx
    rw [hwf.ndA.mem_diff_iff] at hx
    exact hwf.dAC x hx.1
  · intro x hx
    rw [mem_intRange] at hx
    intro hc
    exact hact x hc hx.2
  · intro x
    unfold inPools
    dsimp only
    rw [hwf.ndA.mem_diff_iff, mem_intRange]
    constructor
    · rintro (hx | hx | hx)
      · exact (hwf.memIff x).mp (Or.inl hx.1)
      · omega
      · exact (hwf.memIff x).mp (Or.inr (Or.inr hx))
    · intro hx
      by_cases hxm : 0 ≤ x ∧ x < m
      · exact Or.inr (Or.inl hxm)
      · rcases (hwf.memIff x).mpr hx with h | h | h
        · exact Or.inl ⟨h, hxm⟩
        · have := hres x h
          have h0 : 0 ≤ x := ((hwf.memIff x).mp (Or.inr (Or.inl h))).1
          omega
        · exact Or.inr (Or.inr h)
  · intro x hx
    dsimp only at hx ⊢
    rw [mem_intRange] at hx
    omega
  · intro x h0 hlt hnc
    dsimp only at hlt ⊢
    rw [mem_intRange]
    exact ⟨h0, hlt⟩
  · exact hm0
  · exact hmle
  · intro x cx hcx
    exact hwf.dom x cx hcx
  · intro x hx cx hcx
    rcases hx with hx | hx
    · rw [hwf.ndA.mem_diff_iff] at hx
      exact hwf.inactClean x (Or.inl hx.1) cx hcx
    · rw [mem_intRange] at hx
      have hxin : inPools s x := (hwf.memIff x).mpr ⟨hx.1, by omega⟩
      rcases hxin with h | h | h
      · exact hwf.inactClean x (Or.inl h) cx hcx
      · exact hwf.inactClean x (Or.inr h) cx hcx
      · exact absurd hx.2 (hact x h)
  · intro x hx
    exact hwf.actReg x hx
  · intro x cx hcx hflag
    exact hwf.flagAct x cx hcx hflag
  · intro x cx hcx hflag
    exact hwf.liveSound x cx hcx hflag

theorem shrink_step_spec {s : MixerState} {a : Int}
    (hr : s.channel_reserved_num - 1 < a)
    (hflagAct : ∀ ch, s.channels a = some ch → ch.active = true →
      a ∈ s.channel_active)
    (hactReg : a ∈ s.channel_active →
      ∃ ch, s.channels a = some ch ∧ ch.active = true)
    (hdAC : a ∈ s.channel_active → a ∉ s.channel_available) :
    (shrink_channel s a).channel_available = s.channel_available.erase a
    ∧ (shrink_channel s a).channel_reserved = s.channel_reserved
    ∧ (shrink_channel s a).channel_active = s.channel_active.erase a
    ∧ (shrink_channel s a).channel_reserved_num = s.channel_reserved_num
    ∧ (shrink_channel s a).channel_max = s.channel_max
    ∧ (∀ j, (shrink_channel s a).channels j
        = if j = a then none else s.channels j) := by
  unfold shrink_channel
  dsimp only
  cases hch : s.channels a with
  | none =>
    have hna : a ∉ s.channel_active := by
      intro hmem
      obtain ⟨ch, hc, _⟩ := hactReg hmem
      rw [hch] at hc
      cases hc
    refine ⟨rfl, rfl, ?_, rfl, rfl, ?_⟩
    · rw [List.erase_of_not_mem hna]
    · intro j
      by_cases hj : j = a
      · subst hj
        simp [hch]
      · simp [hj]
  | some ch =>
    cases hfl : ch.active with
    | false =>
      have hna : a ∉ s.channel_active := by
        intro hmem
        obtain ⟨ch2, hc, hfl2⟩ := hactReg hmem
        rw [hch] at hc
        cases hc
        rw [hfl] at hfl2
        cases hfl2
      rw [channel_stop_not_active hch hfl]
      refine ⟨rfl, rfl, ?_, rfl, rfl, ?_⟩
      · rw [List.erase_of_not_mem hna]
        rfl
      · intro j
        by_cases hj : j = a
        · subst hj
          simp
        · simp [hj]
    | true =>
      have hmem : a ∈ s.channel_active := hflagAct ch hch hfl
      have hnA : a ∉ s.channel_available := hdAC hmem
      refine ⟨?_, ?_, ?_, ?_, ?_, ?_⟩
      · show ((channel_stop s a).channel_available).erase a
          = s.channel_available.erase a
        rw [channel_stop_avail_gt hch hfl hr]
        rw [List.erase_append_right _ hnA]
        simp [List.erase_of_not_mem hnA]
      · show (channel_stop s a).channel_reserved = s.channel_reserved
        rw [channel_stop_res_gt hch hfl hr]
      · show (channel_stop s a).channel_active = s.channel_active.erase a
        rw [channel_stop_active hch hfl]
      · show (channel_stop s a).channel_reserved_num = s.channel_reserved_num
        rw [channel_stop_rnum]
      · show (channel_stop s a).channel_max = s.channel_max
        rw [channel_stop_max]
      · intro j
        show (if j = a then none else (channel_stop s a).channels j)
          = if j = a then none else s.channels j
        by_cases hj : j = a
        · simp [hj]
        · rw [if_neg hj, if_neg hj, channel_stop_channels hch hfl, if_neg hj]

theorem shrink_fold_spec (L : List Int) :
    ∀ s : MixerState, L.Nodup →
      (∀ id ∈ L, s.channel_reserved_num - 1 < id) →
      (∀ id ∈ L, ∀ ch, s.channels id = some ch → ch.active = true →
        id ∈ s.channel_active) →
      (∀ id ∈ L, id ∈ s.channel_active →
        ∃ ch, s.channels id = some ch ∧ ch.active = true) →
      (∀ id ∈ L, id ∈ s.channel_active → id ∉ s.channel_available) →
      s.channel_active.Nodup →
      (L.foldl shrink_channel s).channel_available = s.channel_available.diff L
      ∧ (L.foldl shrink_channel s).channel_reserved = s.channel_reserved
      ∧ (L.foldl shrink_channel s).channel_active = s.channel_active.diff L
      ∧ (L.foldl shrink_channel s).channel_reserved_num
          = s.channel_reserved_num
      ∧ (L.foldl shrink_channel s).channel_max = s.channel_max
      ∧ (∀ j, (L.foldl shrink_channel s).channels j
          = if j ∈ L then none else s.channels j) := by
  induction L with
  | nil =>
    intro s _ _ _ _ _ _
    refine ⟨by simp, rfl, by simp, rfl, rfl, ?_⟩
    intro j
    simp
  | cons a rest ih =>
    intro s hnd hr hflagAct hactReg hdAC hndC
    obtain ⟨hA1, hR1, hC1, hrn1, hmx1, hch1⟩ := shrink_step_spec
      (hr a (List.mem_cons_self a rest))
      (hflagAct a (List.mem_cons_self a rest))
      (hactReg a (List.mem_cons_self a rest))
      (hdAC a (List.mem_cons_self a rest))
    rw [List.foldl_cons]
    obtain ⟨hA2, hR2, hC2, hrn2, hmx2, hch2⟩ := ih (shrink_channel s a)
      hnd.of_cons
      (by
        intro id hid
        rw [hrn1]
        exact hr id (List.mem_cons_of_mem a hid))
      (by
        intro id hid ch hc hfl
        have hne : id ≠ a := by
          intro he
          subst he
          exact (List.nodup_cons.mp hnd).1 hid
        rw [hch1 id, if_neg hne] at hc
        rw [hC1]
        refine (List.Nodup.mem_erase_iff hndC).mpr ⟨hne, ?_⟩
        exact hflagAct id (List.mem_cons_of_mem a hid) ch hc hfl)
      (by
        intro id hid hmem
        rw [hC1] at hmem
        have hne : id ≠ a := ((List.Nodup.mem_erase_iff hndC).mp hmem).1
        have hmem2 := List.mem_of_mem_erase hmem
        obtain ⟨ch, hc, hfl⟩ :=
          hactReg id (List.mem_cons_of_mem a hid) hmem2
        refine ⟨ch, ?_, hfl⟩
        rw [hch1 id, if_neg hne]
        exact hc)
      (by
        intro id hid hmem
        rw [hC1] at hmem
        rw [hA1]
        intro hmemA
        exact hdAC id (List.mem_cons_of_mem a hid)
          (List.mem_of_mem_erase hmem) (List.mem_of_mem_erase hmemA))
      (by
        rw [hC1]
        exact hndC.erase a)
    refine ⟨?_, ?_, ?_, ?_, ?_, ?_⟩
    · rw [hA2, hA1, List.diff_cons]
    · rw [hR2, hR1]
    · rw [hC2, hC1, List.diff_cons]
    · rw [hrn2, hrn1]
    · rw [hmx2, hmx1]
    · intro j
      rw [hch2 j]
      by_cases hj : j ∈ rest
      · rw [if_pos hj, if_pos (List.mem_cons_of_mem a hj)]
      · rw [if_neg hj, hch1 j]
        by_cases hja : j = a
        · rw [if_pos hja, if_pos (by rw [hja]; exact List.mem_cons_self a rest)]
        · rw [if_neg hja, if_neg (by
            intro hmem
            rcases List.mem_cons.mp hmem with h | h
            · exact hja h
            · exact hj h)]

theorem wf_set_num_channels {s : MixerState} (hwf : WF s) (n : Int)
    (hsafe : (0 ≤ n ∧ n < s.channel_max) →
      (s.channel_reserved_num ≤ n ∧
        ∀ id ch, s.channels id = some ch → ch.pause = true → id < n)) :
    WF (set_num_channels s n) := by
  unfold set_num_channels
  split_ifs with h1 h2
  · -- growing (or unchanged) capacity
    dsimp only
    have hmax0 : 0 ≤ s.channel_max := wf_max_nonneg hwf
    have hnew : ∀ x ∈ intRange s.channel_max n, s.channel_max ≤ x ∧ x < n := by
      intro x hx
      rw [mem_intRange] at hx
      exact hx
    have hold : ∀ x ∈ s.channel_available, 0 ≤ x ∧ x < s.channel_max :=
      fun x hx => (hwf.memIff x).mp (Or.inl hx)
    constructor
    · rw [List.nodup_append]
      refine ⟨hwf.ndA, nodup_intRange, fun x hx hx2 => ?_⟩
      have := hold x hx
      have := hnew x hx2
      omega
    · exact hwf.ndR
    · exact hwf.ndC
    · intro x hx
      rcases List.mem_append.mp hx with hx | hx
      · exact hwf.dAR x hx
      · intro hres
        have := hnew x hx
        have h0 : 0 ≤ x ∧ x < s.channel_max :=
          (hwf.memIff x).mp (Or.inr (Or.inl hres))
        omega
    · intro x hx
      rcases List.mem_append.mp hx with hx | hx
      · exact hwf.dAC x hx
      · intro hact
        have := hnew x hx
        have h0 : 0 ≤ x ∧ x < s.channel_max :=
          (hwf.memIff x).mp (Or.inr (Or.inr hact))
        omega
    · exact hwf.dRC
    · intro x
      unfold inPools
      dsimp only
      rw [List.mem_append, mem_intRange]
      constructor
      · rintro ((hx | hx) | hx | hx)
        · have := (hwf.memIff x).mp (Or.inl hx)
          omega
        · omega
        · have := (hwf.memIff x).mp (Or.inr (Or.inl hx))
          omega
        · have := (hwf.memIff x).mp (Or.inr (Or.inr hx))
          omega
      · intro hx
        have hx2 : 0 ≤ x ∧ x < n := hx
        by_cases hxm : x < s.channel_max
        · rcases (hwf.memIff x).mpr ⟨hx2.1, hxm⟩ with h | h | h
          · exact Or.inl (Or.inl h)
          · exact Or.inr (Or.inl h)
          · exact Or.inr (Or.inr h)
        · exact Or.inl (Or.inr (by omega))
    · exact hwf.resLt
    · exact hwf.resConv
    · exact hwf.rnumNonneg
    · have := hwf.rnumLe
      dsimp only
      omega
    · intro x cx hcx
      have := hwf.dom x cx hcx
      dsimp only
      omega
    · intro x hx cx hcx
      rcases hx with hx | hx
      · rcases List.mem_append.mp hx with hx | hx
        · exact hwf.inactClean x (Or.inl hx) cx hcx
        · have := hnew x hx
          have := hwf.dom x cx hcx
          omega
      · exact hwf.inactClean x (Or.inr hx) cx hcx
    · exact hwf.actReg
    · exact hwf.flagAct
    · exact hwf.liveSound
  · -- shrinking capacity
    have hn : 0 ≤ n ∧ n < s.channel_max := by omega
    obtain ⟨hrle, hnopause⟩ := hsafe hn
    have hL : ∀ id ∈ intRange n s.channel_max, n ≤ id ∧ id < s.channel_max := by
      intro id hid
      rw [mem_intRange] at hid
      exact hid
    obtain ⟨hA, hR, hC, hrn, hmx, hch⟩ :=
      shrink_fold_spec (intRange n s.channel_max) s nodup_intRange
        (by
          intro id hid
          have := hL id hid
          omega)
        (fun id _ => hwf.flagAct id)
        (by
          intro id hid hmem
          obtain ⟨ch, hc, hflag⟩ := hwf.actReg id hmem
          refine ⟨ch, hc, ?_⟩
          rcases hflag with hf | hf
          · exact hf
          · have := hnopause id ch hc hf
            have := hL id hid
            omega)
        (fun id _ hmem hav => hwf.dAC id hav hmem)
        hwf.ndC
    dsimp only
    constructor
    · rw [hA]
      exact hwf.ndA.diff
    · rw [hR]
      exact hwf.ndR
    · rw [hC]
      exact hwf.ndC.diff
    · intro x hx
      rw [hA, hwf.ndA.mem_diff_iff] at hx
      rw [hR]
      exact hwf.dAR x hx.1
    · intro x hx
      rw [hA, hwf.ndA.mem_diff_iff] at hx
      rw [hC]
      intro hc
      rw [hwf.ndC.mem_diff_iff] at hc
      exact hwf.dAC x hx.1 hc.1
    · intro x hx
      rw [hR] at hx
      rw [hC]
      intro hc
      rw [hwf.ndC.mem_diff_iff] at hc
      exact hwf.dRC x hx hc.1
    · intro x
      unfold inPools
      rw [hA, hR, hC, hwf.ndA.mem_diff_iff, hwf.ndC.mem_diff_iff]
      dsimp only
      have hmemL : x ∈ intRange n s.channel_max ↔ n ≤ x ∧ x < s.channel_max :=
        mem_intRange
      constructor
      · rintro (hx | hx | hx)
        · have := (hwf.memIff x).mp (Or.inl hx.1)
          rw [hmemL] at hx
          omega
        · have h0 := (hwf.memIff x).mp (Or.inr (Or.inl hx))
          have := hwf.resLt x hx
          omega
        · have := (hwf.memIff x).mp (Or.inr (Or.inr hx.1))
          rw [hmemL] at hx
          omega
      · intro hx
        have hxm : 0 ≤ x ∧ x < s.channel_max := by omega
        have hnL : x ∉ intRange n s.channel_max := by
          rw [hmemL]
          omega
        rcases (hwf.memIff x).mpr hxm with h | h | h
        · exact Or.inl ⟨h, hnL⟩
        · exact Or.inr (Or.inl h)
        · exact Or.inr (Or.inr ⟨h, hnL⟩)
    · intro x hx
      rw [hR] at hx
      rw [hrn]
      exact hwf.resLt x hx
    · intro x h0 hlt hnc
      rw [hrn] at hlt
      rw [hC, hwf.ndC.mem_diff_iff] at hnc
      rw [hR]
      refine hwf.resConv x h0 hlt ?_
      intro hmem
      refine hnc ⟨hmem, ?_⟩
      rw [mem_intRange]
      omega
    · rw [hrn]
      exact hwf.rnumNonneg
    · rw [hrn]
      dsimp only
      exact hrle
    · intro x cx hcx
      rw [hch x] at hcx
      dsimp only
      by_cases hxL : x ∈ intRange n s.channel_max
      · rw [if_pos hxL] at hcx
        cases hcx
      · rw [if_neg hxL] at hcx
        have := hwf.dom x cx hcx
        rw [mem_intRange] at hxL
        omega
    · intro x hx cx hcx
      rw [hch x] at hcx
      by_cases hxL : x ∈ intRange n s.channel_max
      · rw [if_pos hxL] at hcx
        cases hcx
      · rw [if_neg hxL] at hcx
        rcases hx with hx | hx
        · rw [hA, hwf.ndA.mem_diff_iff] at hx
          exact hwf.inactClean x (Or.inl hx.1) cx hcx
        · rw [hR] at hx
          exact hwf.inactClean x (Or.inr hx) cx hcx
    · intro x hx
      rw [hC, hwf.ndC.mem_diff_iff] at hx
      obtain ⟨cx, hcx, hflag⟩ := hwf.actReg x hx.1
      refine ⟨cx, ?_, hflag⟩
      rw [hch x, if_neg hx.2]
      exact hcx
    · intro x cx hcx hflag
      rw [hch x] at hcx
      by_cases hxL : x ∈ intRange n s.channel_max
      · rw [if_pos hxL] at hcx
        cases hcx
      · rw [if_neg hxL] at hcx
        rw [hC, hwf.ndC.mem_diff_iff]
        exact ⟨hwf.flagAct x cx hcx hflag, hxL⟩
    · intro x cx hcx hflag
      rw [hch x] at hcx
      by_cases hxL : x ∈ intRange n s.channel_max
      · rw [if_pos hxL] at hcx
        cases hcx
      · rw [if_neg hxL] at hcx
        exact hwf.liveSound x cx hcx hflag
  · exact hwf

theorem wf_mkMixer : WF mkMixer := by
  constructor
  · exact nodup_intRange
  · exact List.nodup_nil
  · exact List.nodup_nil
  · intro id _
    exact List.not_mem_nil id
  · intro id _
    exact List.not_mem_nil id
  · intro id h
    exact absurd h (List.not_mem_nil id)
  · intro id
    show (id ∈ intRange 0 8 ∨ id ∈ ([] : List Int) ∨ id ∈ ([] : List Int))
      ↔ (0 ≤ id ∧ id < 8)
    rw [mem_intRange]
    simp
  · intro id h
    exact absurd h (List.not_mem_nil id)
  · intro id h0 hlt _
    exfalso
    have h2 : id < 0 := hlt
    omega
  · exact le_refl 0
  · show (0 : Int) ≤ 8
    norm_num
  · intro id ch h
    exact Option.noConfusion h
  · intro id _ ch h
    exact Option.noConfusion h
  · intro id h
    exact absurd h (List.not_mem_nil id)
  · intro id ch h
    exact Option.noConfusion h
  · intro id ch h
    exact Option.noConfusion h

theorem wf_exec {s : MixerState} (op : MOp) (hwf : WF s)
    (hsafe : safe_op op s = true) : WF (exec op s) := by
  cases op with
  | init ok f sz c b => exact wf_mixer_init hwf ok f sz c b
  | setNumChannels n =>
    refine wf_set_num_channels hwf n ?_
    intro hn
    unfold safe_op at hsafe
    rw [Bool.or_eq_true, Bool.not_eq_true'] at hsafe
    rcases hsafe with hsafe | hsafe
    · exfalso
      rw [Bool.and_eq_false_iff] at hsafe
      rcases hsafe with h | h <;>
        simp only [decide_eq_false_iff_not] at h <;> omega
    · rw [Bool.and_eq_true, decide_eq_true_eq] at hsafe
      refine ⟨hsafe.1, ?_⟩
      intro id ch hch hp
      by_contra hlt
      have hmem : id ∈ intRange n s.channel_max := by
        rw [mem_intRange]
        have := hwf.dom id ch hch
        omega
      have := List.all_eq_true.mp hsafe.2 id hmem
      rw [hch] at this
      simp only [Option.all, hp] at this
      cases this
  | setReserved n =>
    unfold safe_op at hsafe
    rw [Bool.and_eq_true, List.all_eq_true, List.all_eq_true] at hsafe
    refine wf_set_reserved hwf n ?_ ?_
    · intro id hid
      have := hsafe.1 id hid
      rw [decide_eq_true_eq] at this
      omega
    · intro id hid
      have := hsafe.2 id hid
      rw [decide_eq_true_eq] at this
      exact this
  | findChannel f => exact wf_find_channel hwf f
  | soundPlay snd l =>
    unfold safe_op at hsafe
    exact wf_sound_play hwf hsafe snd l
  | channelPlay id snd l =>
    unfold safe_op at hsafe
    rw [decide_eq_true_eq] at hsafe
    cases hch : s.channels id with
    | none =>
      rw [hch] at hsafe
      cases hsafe
    | some ch =>
      rw [hch] at hsafe
      simp only [Option.map] at hsafe
      cases hsafe2 : ch.pause with
      | true =>
        rw [hsafe2] at hsafe
        cases hsafe
      | false =>
        exact wf_channel_play hwf hch hsafe2 snd l
  | channelStop id => exact wf_channel_stop hwf id
  | mixerPause => exact wf_mixer_pause hwf
  | mixerUnpause => exact wf_mixer_unpause hwf
  | channelPause id => exact wf_channel_pause hwf id
  | channelUnpause id => exact wf_channel_unpause hwf id

theorem wf_execs (ops : List MOp) :
    ∀ s : MixerState, WF s → safe_seq ops s = true → WF (execs ops s) := by
  induction ops with
  | nil =>
    intro s hwf _
    exact hwf
  | cons op rest ih =>
    intro s hwf hsafe
    unfold safe_seq at hsafe
    rw [Bool.and_eq_true] at hsafe
    exact ih (exec op s) (wf_exec op hwf hsafe.1) hsafe.2

theorem wf_poolInvariant {s : MixerState} (hwf : WF s) : PoolInvariant s := by
  refine ⟨?_, hwf.resLt, fun id hid => (hwf.memIff id).mp hid⟩
  intro id h0 hmax
  have hin : inPools s id := (hwf.memIff id).mpr ⟨h0, hmax⟩
  rcases hin with h | h | h
  · rw [List.count_eq_one_of_mem hwf.ndA h,
      List.count_eq_zero_of_not_mem (hwf.dAR id h),
      List.count_eq_zero_of_not_mem (hwf.dAC id h)]
  · rw [List.count_eq_zero_of_not_mem (fun hx => hwf.dAR id hx h),
      List.count_eq_one_of_mem hwf.ndR h,
      List.count_eq_zero_of_not_mem (hwf.dRC id h)]
  · rw [List.count_eq_zero_of_not_mem (fun hx => hwf.dAC id hx h),
      List.count_eq_zero_of_not_mem (fun hx => hwf.dRC id hx h),
      List.count_eq_one_of_mem hwf.ndC h]

/-! ## Claims -/

/-- C1 (counterexample): the pool-partition invariant as claimed — preserved
by every sequence of the public pool operations — is false on the code:
after a successful `init`, playing a sound (activating channel 0) and then
calling `set_reserved 1` puts id 0 into both the reserved pool and the
active deque, so id 0 is duplicated and the partition of `[0, 8)` is
violated. -/
theorem c1_pool_partition_counterexample :
    ¬ PoolInvariant (execs
      [MOp.init true 22050 (-16) 2 4096,
       MOp.soundPlay ⟨[1], 1⟩ 0,
       MOp.setReserved 1] mkMixer) := by
  intro h
  have h0 := h.1 0 (by decide) (by decide)
  revert h0
  decide

/-- C1 (amended): at every instant between public pool operations starting
from the freshly constructed mixer, every channel id in
`[0, channel_capacity)` is a member of exactly one of the available,
reserved and active pools (counting multiplicity, so no id is lost or
duplicated), and reserved membership occurs only for ids below the reserved
count — provided each operation meets its safety precondition (`safe_op`):
`set_reserved r` is not called while an id below the clamped `r` is in the
active deque or an id at or above the clamped `r` is in the reserved pool;
`set_num_channels n` does not shrink below the reserved count or below a
paused channel; `Sound.play` is only called after an `init` attempt; and
`Channel.play` is only called on a registered, non-paused channel. -/
theorem c1_pool_partition (ops : List MOp)
    (hsafe : safe_seq ops mkMixer = true) :
    PoolInvariant (execs ops mkMixer) :=
  wf_poolInvariant (wf_execs ops mkMixer wf_mkMixer hsafe)

/-- C1 (witness): a concrete safe operation sequence — init, play, stop,
reserve two channels, forced find, pause and unpause — satisfies the
precondition and the resulting state satisfies the pool partition. -/
theorem c1_pool_partition_witness :
    safe_seq
      [MOp.init true 22050 (-16) 2 4096, MOp.soundPlay ⟨[2], 1⟩ 0,
       MOp.channelStop 0, MOp.setReserved 2, MOp.findChannel true,
       MOp.mixerPause, MOp.mixerUnpause] mkMixer = true
    ∧ PoolInvariant (execs
      [MOp.init true 22050 (-16) 2 4096, MOp.soundPlay ⟨[2], 1⟩ 0,
       MOp.channelStop 0, MOp.setReserved 2, MOp.findChannel true,
       MOp.mixerPause, MOp.mixerUnpause] mkMixer) :=
  ⟨by decide, c1_pool_partition _ (by decide)⟩

@[simp] theorem activate_channels (s : MixerState) (id j : Int) :
    (activate_channel s id).channels j = s.channels j := by
  unfold activate_channel
  dsimp only
  split_ifs <;> rfl

theorem set_volume_channels_self {s : MixerState} {id : Int} {ch : ChannelState}
    (hch : s.channels id = some ch) (v v2 : Rat) :
    (channel_set_volume s id v (some v2)).channels id
      = some (if v2 ≠ 0 then
          { ch with lvolume := clampVol v, rvolume := clampVol v2 }
        else
          { ch with lvolume := clampVol v, rvolume := clampVol v
                    volume := clampVol v }) := by
  unfold channel_set_volume
  rw [hch]
  dsimp only
  split_ifs with h <;> simp [h]

theorem get_channel_pools {s t : MixerState} {id : Int}
    (h : get_channel s id = some t) :
    t.channel_available = s.channel_available
    ∧ t.channel_reserved = s.channel_reserved
    ∧ t.channel_active = s.channel_active
    ∧ t.channel_reserved_num = s.channel_reserved_num
    ∧ t.channel_max = s.channel_max := by
  unfold get_channel register_channel at h
  cases hch : s.channels id with
  | some ch =>
    rw [hch] at h
    cases h
    exact ⟨rfl, rfl, rfl, rfl, rfl⟩
  | none =>
    rw [hch] at h
    dsimp only at h
    split_ifs at h
    all_goals first
      | (cases h; exact ⟨rfl, rfl, rfl, rfl, rfl⟩)
      | cases h

theorem clampVol_of_bounds {v : Rat} (h0 : 0 ≤ v) (h1 : v ≤ 1) :
    clampVol v = v := by
  unfold clampVol
  split_ifs with hv1 hv2
  · linarith
  · linarith
  · rfl

/-- C9: on a channel whose active flag is clear (never played, already
stopped, or paused), `Channel.stop` returns immediately leaving the entire
mixer state — channel record, pools and registry — unchanged; hence calling
`stop` twice always produces exactly the state of calling it once. -/
theorem c9_stop_idempotent :
    (∀ (s : MixerState) (id : Int) (ch : ChannelState),
      s.channels id = some ch → ch.active = false → channel_stop s id = s)
    ∧ (∀ (s : MixerState) (id : Int),
      channel_stop (channel_stop s id) id = channel_stop s id) := by
  constructor
  · intro s id ch hch hact
    exact channel_stop_not_active hch hact
  · intro s id
    cases hch : s.channels id with
    | none =>
      rw [channel_stop_unregistered hch, channel_stop_unregistered hch]
    | some ch =>
      cases hact : ch.active with
      | false =>
        rw [channel_stop_not_active hch hact, channel_stop_not_active hch hact]
      | true =>
        have h2 : (channel_stop s id).channels id = some freshChannel := by
          rw [channel_stop_channels hch hact]
          simp
        exact channel_stop_not_active h2 rfl

/-- C9 (witness): stopping an already-stopped concrete channel — channel 0
after init, play and stop — leaves the state unchanged. -/
theorem c9_stop_idempotent_witness :
    channel_stop
      (execs [MOp.init true 22050 (-16) 2 4096, MOp.soundPlay ⟨[1], 1⟩ 0,
        MOp.channelStop 0] mkMixer) 0
      = execs [MOp.init true 22050 (-16) 2 4096, MOp.soundPlay ⟨[1], 1⟩ 0,
        MOp.channelStop 0] mkMixer :=
  c9_stop_idempotent.1 _ 0 freshChannel (by decide) (by decide)

/-- C10 (counterexample): the claim that a supplied second argument is
clamped and applied to the right volume fails at `r = 0.0`: Python
`if volume2:` treats `0.0` as falsy, so `set_volume(1, 0)` sets the right
volume to `1`, not to `0`. -/
theorem c10_set_volume_counterexample :
    ¬ (((channel_set_volume
        (execs [MOp.init true 22050 (-16) 2 4096, MOp.soundPlay ⟨[2], 1⟩ 0]
          mkMixer) 0 1 (some 0)).channels 0).map ChannelState.rvolume
      = some 0) := by
  decide

/-- C10 (amended): `set_volume(v)` with the second argument omitted clamps
`v` to `[0,1]`, applies it to both left and right volume and to the mono
volume, so `get_volume` returns the clamped value (`0.4` yields `0.4`,
`1.5` clamps to `1.0`, `-0.1` clamps to `0.0`); `set_volume(l, r)` with a
supplied `r ≠ 0.0` clamps each argument and applies them to left and right
respectively; with `r = 0.0` exactly (falsy in Python), the call behaves as
if `r` were omitted — the right volume becomes the clamped `l`, not `0`. -/
theorem c10_set_volume (s : MixerState) (id : Int) (ch : ChannelState)
    (hch : s.channels id = some ch) :
    (∀ v, (channel_set_volume s id v none).channels id
        = some { ch with lvolume := clampVol v, rvolume := clampVol v
                         volume := clampVol v }
      ∧ channel_get_volume (channel_set_volume s id v none) id
          = some (clampVol v))
    ∧ (∀ v v2, v2 ≠ 0 →
        (channel_set_volume s id v (some v2)).channels id
          = some { ch with lvolume := clampVol v, rvolume := clampVol v2 })
    ∧ (∀ v, channel_set_volume s id v (some 0) = channel_set_volume s id v none)
    ∧ (∀ v, 0 ≤ v → v ≤ 1 → clampVol v = v)
    ∧ clampVol (3/2) = 1 ∧ clampVol (-1/10) = 0 := by
  refine ⟨?_, ?_, ?_, fun v h0 h1 => clampVol_of_bounds h0 h1,
    by norm_num [clampVol], by norm_num [clampVol]⟩
  · intro v
    constructor
    · unfold channel_set_volume
      rw [hch]
      simp
    · unfold channel_get_volume channel_set_volume
      rw [hch]
      simp
  · intro v v2 hv2
    unfold channel_set_volume
    rw [hch]
    dsimp only
    rw [if_pos hv2]
    simp
  · intro v
    unfold channel_set_volume
    cases hc : s.channels id with
    | none => rfl
    | some ch2 =>
      dsimp only
      rw [if_neg (by simp)]

/-- C10 (witness): on a concrete channel, `set_volume(1)` then
`get_volume` yields `1` (the clamp of `1`). -/
theorem c10_set_volume_witness :
    channel_get_volume
      (channel_set_volume
        (execs [MOp.init true 22050 (-16) 2 4096, MOp.soundPlay ⟨[2], 1⟩ 0]
          mkMixer) 0 1 none) 0 = some 1 := by
  have h := (c10_set_volume
    (execs [MOp.init true 22050 (-16) 2 4096, MOp.soundPlay ⟨[2], 1⟩ 0]
      mkMixer) 0
    ⟨some ⟨[2], 1⟩, some [2], true, false, 0, 1, 1, 1⟩ (by decide)).1 1
  rw [h.2]
  decide

/-- C8 (counterexample): the claim that `Channel.play` preserves the left
and right volumes fails when the saved right volume is exactly `0.0`:
re-applying it goes through `set_volume(lv, 0.0)` and Python treats the
`0.0` second argument as falsy, so the right volume becomes the saved left
volume instead.  Concretely, with `lvolume = 1` and `rvolume = 0`, `play`
changes the right volume to `1`. -/
theorem c8_play_volume_counterexample :
    ¬ (((channel_play
          (channel_set_volume
            (execs [MOp.init true 22050 (-16) 2 4096, MOp.soundPlay ⟨[2], 1⟩ 0]
              mkMixer) 0 1 (some (-1))) 0 ⟨[3], 1⟩ 0).channels 0).map
            ChannelState.rvolume
        = ((channel_set_volume
            (execs [MOp.init true 22050 (-16) 2 4096, MOp.soundPlay ⟨[2], 1⟩ 0]
              mkMixer) 0 1 (some (-1))).channels 0).map ChannelState.rvolume) := by
  decide

/-- C8 (amended): for `Channel.play` on a channel currently holding a sound,
with in-range stored volumes (the code only ever stores clamped values), the
left volume after the call equals the left volume before; the right volume
after the call equals the right volume before whenever that value is nonzero,
but when the saved right volume is exactly `0.0` (falsy in Python) the
re-application behaves as a one-argument `set_volume` and the right volume
becomes the saved left volume. -/
theorem c8_play_volume (s : MixerState) (id : Int) (ch : ChannelState)
    (snd : Snd) (loops : Int)
    (hch : s.channels id = some ch) (hsnd : ch.sound.isSome = true)
    (hl0 : 0 ≤ ch.lvolume) (hl1 : ch.lvolume ≤ 1)
    (hr0 : 0 ≤ ch.rvolume) (hr1 : ch.rvolume ≤ 1) :
    ((channel_play s id snd loops).channels id).map ChannelState.lvolume
        = some ch.lvolume
    ∧ ((channel_play s id snd loops).channels id).map ChannelState.rvolume
        = some (if ch.rvolume = 0 then ch.lvolume else ch.rvolume) := by
  obtain ⟨snd0, hs0⟩ := Option.isSome_iff_exists.mp hsnd
  have hstop : ∃ ch1 : ChannelState, (channel_stop s id).channels id = some ch1 := by
    cases ha : ch.active
    · exact ⟨ch, by rw [channel_stop_not_active hch ha]; exact hch⟩
    · refine ⟨freshChannel, ?_⟩
      rw [channel_stop_channels hch ha id]
      simp
  obtain ⟨ch1, hch1⟩ := hstop
  have hsv := set_volume_channels_self hch1 ch.lvolume ch.rvolume
  unfold channel_play
  rw [hch]
  dsimp only
  rw [hs0]
  dsimp only
  unfold channel_play_priv
  by_cases hr : ch.rvolume = 0
  · rw [if_neg (by simp [hr])] at hsv
    rw [hsv]
    dsimp only
    simp [clampVol_of_bounds hl0 hl1, hr]
  · rw [if_pos hr] at hsv
    rw [hsv]
    dsimp only
    simp [clampVol_of_bounds hl0 hl1, clampVol_of_bounds hr0 hr1, hr]

/-- C8 (witness): playing a new sound on concrete channel 0 (which holds a
sound with left and right volume `1`) preserves both volumes. -/
theorem c8_play_volume_witness :
    ((channel_play
        (execs [MOp.init true 22050 (-16) 2 4096, MOp.soundPlay ⟨[2], 1⟩ 0]
          mkMixer) 0 ⟨[3], 1⟩ 0).channels 0).map ChannelState.lvolume
        = some 1
    ∧ ((channel_play
        (execs [MOp.init true 22050 (-16) 2 4096, MOp.soundPlay ⟨[2], 1⟩ 0]
          mkMixer) 0 ⟨[3], 1⟩ 0).channels 0).map ChannelState.rvolume
        = some 1 := by
  have h := c8_play_volume
    (execs [MOp.init true 22050 (-16) 2 4096, MOp.soundPlay ⟨[2], 1⟩ 0]
      mkMixer) 0
    ⟨some ⟨[2], 1⟩, some [2], true, false, 0, 1, 1, 1⟩ ⟨[3], 1⟩ 0
    (by decide) (by decide) (by decide) (by decide) (by decide) (by decide)
  refine ⟨h.1, ?_⟩
  rw [h.2]
  decide

/-- C4: on a well-formed state, `find_channel(force=false)` returns `None`
exactly when both the available and the reserved pools are empty, and when it
returns a channel the call is only a peek: the chosen id is popped and pushed
back, so each of the available and reserved pools afterwards is a permutation
of (holds exactly the same ids as) its value before the call. -/
theorem c4_find_channel_peek (s : MixerState) (hwf : WF s) :
    ((find_channel s false).1 = some none
        ↔ s.channel_available = [] ∧ s.channel_reserved = [])
    ∧ (∀ id, (find_channel s false).1 = some (some id) →
        (find_channel s false).2.channel_available.Perm s.channel_available
        ∧ (find_channel s false).2.channel_reserved.Perm s.channel_reserved) := by
  have hres0 : s.channel_reserved_num = 0 → s.channel_reserved = [] := by
    intro h0
    rw [List.eq_nil_iff_forall_not_mem]
    intro id hid
    have h1 := hwf.resLt id hid
    have h2 := (hwf.memIff id).mp (Or.inr (Or.inl hid))
    omega
  unfold find_channel
  cases hav : s.channel_available with
  | cons id rest =>
    dsimp only
    cases hg : get_channel { s with channel_available := rest ++ [id] } id with
    | some s2 =>
      dsimp only
      refine ⟨by simp, ?_⟩
      intro j hj
      simp only [Option.some.injEq] at hj
      subst hj
      obtain ⟨ha, hr, _⟩ := get_channel_pools hg
      constructor
      · rw [ha]
        exact List.perm_append_comm
      · rw [hr]
    | none =>
      dsimp only
      exact ⟨by simp, fun j hj => by simp at hj⟩
  | nil =>
    dsimp only
    by_cases hrn : s.channel_reserved_num = 0
    · rw [if_neg (by simp [hrn])]
      dsimp only
      rw [if_pos rfl]
      exact ⟨by simp [hres0 hrn], fun j hj => by simp at hj⟩
    · rw [if_pos hrn]
      cases hrs : s.channel_reserved with
      | nil =>
        dsimp only
        rw [if_pos rfl]
        exact ⟨by simp, fun j hj => by simp at hj⟩
      | cons id rest =>
        dsimp only
        cases hg : get_channel
            { s with channel_available := [],
                     channel_reserved := rest ++ [id] } id with
        | some s2 =>
          refine ⟨by simp, ?_⟩
          intro j hj
          simp only [Option.some.injEq] at hj
          subst hj
          obtain ⟨ha, hr, _⟩ := get_channel_pools hg
          constructor
          · rw [ha]
          · rw [hr]
            exact List.perm_append_comm
        | none =>
          exact ⟨by simp, fun j hj => by simp at hj⟩

/-- C4 (witness): at the concrete initialized state, `find_channel(false)`
returns a channel and leaves the available and reserved id sets unchanged. -/
theorem c4_find_channel_peek_witness :
    ((find_channel (execs [MOp.init true 22050 (-16) 2 4096] mkMixer)
        false).1 = some none
      ↔ (execs [MOp.init true 22050 (-16) 2 4096]
          mkMixer).channel_available = []
        ∧ (execs [MOp.init true 22050 (-16) 2 4096]
            mkMixer).channel_reserved = [])
    ∧ (∀ id, (find_channel (execs [MOp.init true 22050 (-16) 2 4096] mkMixer)
          false).1 = some (some id) →
        (find_channel (execs [MOp.init true 22050 (-16) 2 4096] mkMixer)
            false).2.channel_available.Perm
          (execs [MOp.init true 22050 (-16) 2 4096] mkMixer).channel_available
        ∧ (find_channel (execs [MOp.init true 22050 (-16) 2 4096] mkMixer)
            false).2.channel_reserved.Perm
          (execs [MOp.init true 22050 (-16) 2 4096]
            mkMixer).channel_reserved) :=
  c4_find_channel_peek (execs [MOp.init true 22050 (-16) 2 4096] mkMixer)
    (wf_execs [MOp.init true 22050 (-16) 2 4096] mkMixer wf_mkMixer (by decide))

/-- C6: on a well-formed state, `set_reserved(r)` clamps `r` to
`[0, channel_max]` (in particular it equals `r` whenever `r` is already in
range), afterwards the reserved pool contains exactly the ids
`[0, r_clamped)`, and none of those ids is a member of `available`. -/
theorem c6_set_reserved (s : MixerState) (r : Int) (hwf : WF s) :
    0 ≤ (set_reserved s r).channel_reserved_num
    ∧ (set_reserved s r).channel_reserved_num ≤ s.channel_max
    ∧ ((0 ≤ r ∧ r ≤ s.channel_max) →
        (set_reserved s r).channel_reserved_num = r)
    ∧ (∀ id, id ∈ (set_reserved s r).channel_reserved
        ↔ 0 ≤ id ∧ id < (set_reserved s r).channel_reserved_num)
    ∧ (∀ id, id ∈ (set_reserved s r).channel_reserved →
        id ∉ (set_reserved s r).channel_available) := by
  have hmax0 : 0 ≤ s.channel_max := wf_max_nonneg hwf
  rw [set_reserved_spec]
  dsimp only
  set m := if r > s.channel_max then s.channel_max
           else if r < 0 then 0 else r with hm
  refine ⟨?_, ?_, ?_, ?_, ?_⟩
  · rw [hm]
    split_ifs <;> omega
  · rw [hm]
    split_ifs <;> omega
  · intro h
    rw [hm]
    split_ifs <;> omega
  · intro id
    rw [mem_intRange]
  · intro id hid hmem
    rw [hwf.ndA.mem_diff_iff] at hmem
    exact hmem.2 hid

/-- C6 (witness): at the concrete initialized state, `set_reserved 2` yields
a reserved count of 2, the reserved pool holds exactly `[0, 2)`, disjoint
from `available`. -/
theorem c6_set_reserved_witness :
    0 ≤ (set_reserved (execs [MOp.init true 22050 (-16) 2 4096] mkMixer)
        2).channel_reserved_num
    ∧ (set_reserved (execs [MOp.init true 22050 (-16) 2 4096] mkMixer)
        2).channel_reserved_num
      ≤ (execs [MOp.init true 22050 (-16) 2 4096] mkMixer).channel_max
    ∧ ((0 ≤ (2 : Int)
        ∧ (2 : Int) ≤ (execs [MOp.init true 22050 (-16) 2 4096]
            mkMixer).channel_max) →
        (set_reserved (execs [MOp.init true 22050 (-16) 2 4096] mkMixer)
          2).channel_reserved_num = 2)
    ∧ (∀ id, id ∈ (set_reserved (execs [MOp.init true 22050 (-16) 2 4096]
          mkMixer) 2).channel_reserved
        ↔ 0 ≤ id ∧ id < (set_reserved (execs [MOp.init true 22050 (-16) 2 4096]
            mkMixer) 2).channel_reserved_num)
    ∧ (∀ id, id ∈ (set_reserved (execs [MOp.init true 22050 (-16) 2 4096]
          mkMixer) 2).channel_reserved →
        id ∉ (set_reserved (execs [MOp.init true 22050 (-16) 2 4096]
          mkMixer) 2).channel_available) :=
  c6_set_reserved (execs [MOp.init true 22050 (-16) 2 4096] mkMixer) 2
    (wf_execs [MOp.init true 22050 (-16) 2 4096] mkMixer wf_mkMixer (by decide))

theorem shrink_step_channels (s : MixerState) (a : Int) (j : Int) :
    (shrink_channel s a).channels j = if j = a then none else s.channels j := by
  unfold shrink_channel
  dsimp only
  cases hch : s.channels a with
  | none =>
    by_cases hj : j = a
    · subst hj
      simp [hch]
    · simp [hj]
  | some ch =>
    cases hfl : ch.active with
    | false =>
      rw [channel_stop_not_active hch hfl]
      rfl
    | true =>
      show (if j = a then none else (channel_stop s a).channels j)
        = if j = a then none else s.channels j
      by_cases hj : j = a
      · simp [hj]
      · rw [if_neg hj, if_neg hj, channel_stop_channels hch hfl, if_neg hj]

theorem shrink_fold_channels (L : List Int) :
    ∀ s : MixerState, ∀ j,
      (L.foldl shrink_channel s).channels j
        = if j ∈ L then none else s.channels j := by
  induction L with
  | nil =>
    intro s j
    simp
  | cons a rest ih =>
    intro s j
    rw [List.foldl_cons, ih, shrink_step_channels]
    by_cases hj : j ∈ rest
    · rw [if_pos hj, if_pos (List.mem_cons_of_mem a hj)]
    · rw [if_neg hj]
      by_cases hja : j = a
      · rw [if_pos hja, if_pos (by rw [hja]; exact List.mem_cons_self a rest)]
      · rw [if_neg hja, if_neg (by
          intro hmem
          rcases List.mem_cons.mp hmem with h | h
          · exact hja h
          · exact hj h)]

theorem shrink_step_active_cases (s : MixerState) (a : Int) :
    (shrink_channel s a).channel_active = s.channel_active
    ∨ (shrink_channel s a).channel_active = s.channel_active.erase a := by
  unfold shrink_channel
  dsimp only
  cases hch : s.channels a with
  | none => exact Or.inl rfl
  | some ch =>
    cases hfl : ch.active with
    | false =>
      rw [channel_stop_not_active hch hfl]
      exact Or.inl rfl
    | true =>
      right
      show (channel_stop s a).channel_active = s.channel_active.erase a
      rw [channel_stop_active hch hfl]

theorem shrink_step_active_of_active {s : MixerState} {a : Int}
    {ch : ChannelState} (hch : s.channels a = some ch)
    (hfl : ch.active = true) :
    (shrink_channel s a).channel_active = s.channel_active.erase a := by
  unfold shrink_channel
  dsimp only
  rw [hch]
  dsimp only
  show (channel_stop s a).channel_active = s.channel_active.erase a
  rw [channel_stop_active hch hfl]

theorem shrink_active_mono (L : List Int) :
    ∀ (s : MixerState) (x : Int),
      x ∈ (L.foldl shrink_channel s).channel_active →
      x ∈ s.channel_active := by
  induction L with
  | nil =>
    intro s x h
    exact h
  | cons a rest ih =>
    intro s x h
    rw [List.foldl_cons] at h
    have h2 := ih (shrink_channel s a) x h
    rcases shrink_step_active_cases s a with hc | hc
    · rw [hc] at h2
      exact h2
    · rw [hc] at h2
      exact List.mem_of_mem_erase h2

theorem shrink_active_removed (L : List Int) :
    ∀ (s : MixerState) (j : Int) (ch : ChannelState),
      s.channel_active.Nodup → j ∈ L → s.channels j = some ch →
      ch.active = true →
      j ∉ (L.foldl shrink_channel s).channel_active := by
  induction L with
  | nil =>
    intro s j ch _ hj
    exact absurd hj (List.not_mem_nil j)
  | cons a rest ih =>
    intro s j ch hnd hj hch hfl
    rw [List.foldl_cons]
    by_cases hja : j = a
    · subst hja
      intro hmem
      have h2 := shrink_active_mono rest (shrink_channel s j) j hmem
      rw [shrink_step_active_of_active hch hfl] at h2
      exact ((List.Nodup.mem_erase_iff hnd).mp h2).1 rfl
    · have hj2 : j ∈ rest := by
        rcases List.mem_cons.mp hj with h | h
        · exact absurd h hja
        · exact h
      refine ih (shrink_channel s a) j ch ?_ hj2 ?_ hfl
      · rcases shrink_step_active_cases s a with hc | hc
        · rw [hc]
          exact hnd
        · rw [hc]
          exact hnd.erase a
      · rw [shrink_step_channels, if_neg hja]
        exact hch

/-- C5: on a well-formed state, for every `n ≥ 0`, after `set_num_channels n`
the reported channel count is `n`; no channel with id `≥ n` remains in the
registry (each such registered channel has its record deleted); every
registered channel with id `≥ n` whose active flag was set is stopped — its
id no longer sits in the active deque afterwards; and growing the capacity
from `channel_max ≤ n` appends exactly the new ids `[channel_max, n)` to
`available`. -/
theorem c5_set_num_channels (s : MixerState) (hwf : WF s) (n : Int)
    (hn : 0 ≤ n) :
    get_num_channels (set_num_channels s n) = n
    ∧ (∀ j, n ≤ j → (set_num_channels s n).channels j = none)
    ∧ (∀ j ch, n ≤ j → s.channels j = some ch → ch.active = true →
        j ∉ (set_num_channels s n).channel_active)
    ∧ (s.channel_max ≤ n →
        (set_num_channels s n).channel_available
          = s.channel_available ++ intRange s.channel_max n) := by
  have hnone : ∀ j, s.channel_max ≤ j → s.channels j = none := by
    intro j hj
    cases hc : s.channels j with
    | none => rfl
    | some ch =>
      have := hwf.dom j ch hc
      omega
  unfold set_num_channels get_num_channels
  by_cases hge : n ≥ s.channel_max
  · rw [if_pos hge]
    refine ⟨rfl, ?_, ?_, fun _ => rfl⟩
    · intro j hj
      exact hnone j (by omega)
    · intro j ch hj hch hfl
      exact absurd (hwf.dom j ch hch).2 (by omega)
  · rw [if_neg hge, if_pos hn]
    refine ⟨rfl, ?_, ?_, fun h => absurd h hge⟩
    · intro j hj
      show ((intRange n s.channel_max).foldl shrink_channel s).channels j
        = none
      rw [shrink_fold_channels]
      by_cases hjm : j ∈ intRange n s.channel_max
      · rw [if_pos hjm]
      · rw [if_neg hjm]
        refine hnone j ?_
        rw [mem_intRange] at hjm
        omega
    · intro j ch hj hch hfl
      show j ∉ ((intRange n s.channel_max).foldl shrink_channel
        s).channel_active
      by_cases hjm : j < s.channel_max
      · exact shrink_active_removed (intRange n s.channel_max) s j ch hwf.ndC
          (mem_intRange.mpr ⟨hj, hjm⟩) hch hfl
      · exact absurd (hwf.dom j ch hch).2 hjm

/-- C5 (witness): at the concrete state with channel 0 actively playing,
`set_num_channels 0` reports 0 channels, clears every registry entry, and
removes the playing channel 0 from the active deque (it is stopped); the
growth clause holds vacuously (`8 ≤ 0` is false). -/
theorem c5_set_num_channels_witness :
    get_num_channels (set_num_channels
      (execs [MOp.init true 22050 (-16) 2 4096, MOp.soundPlay ⟨[1], 1⟩ 0]
        mkMixer) 0) = 0
    ∧ (∀ j, (0 : Int) ≤ j →
        (set_num_channels (execs [MOp.init true 22050 (-16) 2 4096,
          MOp.soundPlay ⟨[1], 1⟩ 0] mkMixer) 0).channels j = none)
    ∧ (∀ j ch, (0 : Int) ≤ j →
        (execs [MOp.init true 22050 (-16) 2 4096, MOp.soundPlay ⟨[1], 1⟩ 0]
          mkMixer).channels j = some ch → ch.active = true →
        j ∉ (set_num_channels (execs [MOp.init true 22050 (-16) 2 4096,
          MOp.soundPlay ⟨[1], 1⟩ 0] mkMixer) 0).channel_active)
    ∧ ((execs [MOp.init true 22050 (-16) 2 4096, MOp.soundPlay ⟨[1], 1⟩ 0]
          mkMixer).channel_max ≤ 0 →
        (set_num_channels (execs [MOp.init true 22050 (-16) 2 4096,
            MOp.soundPlay ⟨[1], 1⟩ 0] mkMixer) 0).channel_available
          = (execs [MOp.init true 22050 (-16) 2 4096,
              MOp.soundPlay ⟨[1], 1⟩ 0] mkMixer).channel_available
            ++ intRange (execs [MOp.init true 22050 (-16) 2 4096,
                MOp.soundPlay ⟨[1], 1⟩ 0] mkMixer).channel_max 0) :=
  c5_set_num_channels
    (execs [MOp.init true 22050 (-16) 2 4096, MOp.soundPlay ⟨[1], 1⟩ 0]
      mkMixer)
    (wf_execs [MOp.init true 22050 (-16) 2 4096, MOp.soundPlay ⟨[1], 1⟩ 0]
      mkMixer wf_mkMixer (by decide))
    0 (by decide)

theorem get_channel_isSome {s : MixerState} (hbuf : s.buffer_size_set = true)
    {id : Int} (hlt : id < s.channel_max) :
    ∃ t, get_channel s id = some t := by
  unfold get_channel register_channel
  cases hch : s.channels id with
  | some ch => exact ⟨s, rfl⟩
  | none =>
    dsimp only
    rw [if_neg (by rw [hbuf]; simp), if_pos hlt]
    exact ⟨_, rfl⟩

theorem force_scan_fst (rnum : Int) (l : List Int) :
    (force_scan rnum l).1 = l.find? (fun id => decide (rnum ≤ id)) := by
  induction l with
  | nil => rfl
  | cons id rest ih =>
    simp only [force_scan]
    split_ifs with h1 h2
    · have hp : decide (rnum ≤ id) = true := decide_eq_true (by omega)
      simp only [List.find?, hp]
    · have hp : decide (rnum ≤ id) = false := decide_eq_false (by omega)
      simp only [List.find?, hp]
      exact ih
    · have hp : decide (rnum ≤ id) = false := decide_eq_false (by omega)
      simp only [List.find?, hp]
      exact ih

theorem force_scan_snd_of_none (rnum : Int) (l : List Int)
    (h : (force_scan rnum l).1 = none) :
    (force_scan rnum l).2
      = (l.filter (fun id => decide (-1 < id ∧ id < rnum))).head? := by
  induction l with
  | nil => rfl
  | cons id rest ih =>
    by_cases h1 : id > rnum - 1
    · simp only [force_scan, if_pos h1] at h
      simp at h
    · by_cases h2 : id > -1
      · simp only [force_scan, if_neg h1, if_pos h2]
        have hp : ((fun id => decide ((-1 : Int) < id ∧ id < rnum)) id) = true := by
          simp only [decide_eq_true_eq]
          omega
        rw [List.filter_cons, if_pos hp]
        rfl
      · simp only [force_scan, if_neg h1, if_neg h2] at h ⊢
        have hp : ¬ ((fun id => decide ((-1 : Int) < id ∧ id < rnum)) id) = true := by
          simp only [decide_eq_true_eq]
          omega
        rw [List.filter_cons, if_neg hp]
        exact ih h

/-- The reclamation choice exactly as the specification words it: the
oldest-activated (frontmost) non-reserved id in the active deque if one
exists, else the oldest-activated reserved non-music id, else channel 0. -/
def spec_force_choice (rnum : Int) (active : List Int) : Int :=
  match active.find? (fun id => decide (rnum ≤ id)) with
  | some id => id
  | none =>
    match (active.filter (fun id => decide (-1 < id ∧ id < rnum))).head? with
    | some id => id
    | none => 0

/-- C3: on a well-formed state with positive capacity whose buffer size has
been set (an `init` was attempted), `find_channel(force=true)` always returns
a channel; and when both inactive pools are empty the returned id is exactly
the specification's reclamation choice: the oldest-activated non-reserved
active id if one exists, else the oldest-activated reserved active id, else
channel 0. -/
theorem c3_find_channel_force (s : MixerState) (hwf : WF s)
    (hmax : 0 < s.channel_max) (hbuf : s.buffer_size_set = true) :
    (∃ id, (find_channel s true).1 = some (some id))
    ∧ (s.channel_available = [] → s.channel_reserved = [] →
        (find_channel s true).1
          = some (some (spec_force_choice s.channel_reserved_num
              s.channel_active))) := by
  unfold find_channel
  cases havail : s.channel_available with
  | cons id rest =>
    dsimp only
    have hid : id ∈ s.channel_available := by
      rw [havail]
      exact List.mem_cons_self id rest
    have hrange : 0 ≤ id ∧ id < s.channel_max := (hwf.memIff id).mp (Or.inl hid)
    obtain ⟨t, ht⟩ := get_channel_isSome
      (show ({ s with channel_available := rest ++ [id] }).buffer_size_set
          = true from hbuf)
      (show id < ({ s with channel_available := rest ++ [id] }).channel_max
        from hrange.2)
    rw [ht]
    refine ⟨⟨id, rfl⟩, ?_⟩
    intro hA _
    simp at hA
  | nil =>
    dsimp only
    by_cases hrn : s.channel_reserved_num ≠ 0
    · rw [if_pos hrn]
      cases hres : s.channel_reserved with
      | cons id rest =>
        dsimp only
        have hid : id ∈ s.channel_reserved := by
          rw [hres]
          exact List.mem_cons_self id rest
        have hrange : 0 ≤ id ∧ id < s.channel_max :=
          (hwf.memIff id).mp (Or.inr (Or.inl hid))
        obtain ⟨t, ht⟩ := get_channel_isSome
          (show ({ s with channel_available := ([] : List Int),
                          channel_reserved := rest ++ [id] }).buffer_size_set
              = true from hbuf)
          (show id < ({ s with channel_available := ([] : List Int),
                               channel_reserved := rest ++ [id] }).channel_max
            from hrange.2)
        rw [ht]
        refine ⟨⟨id, rfl⟩, ?_⟩
        intro _ hR
        simp at hR
      | nil =>
        dsimp only
        rw [if_neg (by decide)]
        cases hscan1 : (force_scan s.channel_reserved_num s.channel_active).1 with
        | some x =>
          have hx : x ∈ s.channel_active := force_scan_fst_mem hscan1
          have hrange : 0 ≤ x ∧ x < s.channel_max :=
            (hwf.memIff x).mp (Or.inr (Or.inr hx))
          obtain ⟨t, ht⟩ := get_channel_isSome hbuf hrange.2
          rw [ht]
          refine ⟨⟨x, rfl⟩, ?_⟩
          intro _ _
          unfold spec_force_choice
          rw [← force_scan_fst, hscan1]
        | none =>
          cases hscan2 : (force_scan s.channel_reserved_num s.channel_active).2 with
          | some y =>
            have hy : y ∈ s.channel_active := force_scan_snd_mem hscan2
            have hrange : 0 ≤ y ∧ y < s.channel_max :=
              (hwf.memIff y).mp (Or.inr (Or.inr hy))
            obtain ⟨t, ht⟩ := get_channel_isSome hbuf hrange.2
            rw [ht]
            refine ⟨⟨y, rfl⟩, ?_⟩
            intro _ _
            unfold spec_force_choice
            rw [← force_scan_fst, hscan1, ← force_scan_snd_of_none
              s.channel_reserved_num s.channel_active hscan1, hscan2]
          | none =>
            obtain ⟨t, ht⟩ := get_channel_isSome hbuf hmax
            rw [ht]
            refine ⟨⟨0, rfl⟩, ?_⟩
            intro _ _
            unfold spec_force_choice
            rw [← force_scan_fst, hscan1, ← force_scan_snd_of_none
              s.channel_reserved_num s.channel_active hscan1, hscan2]
    · rw [if_neg hrn]
      dsimp only
      rw [if_neg (by decide)]
      cases hscan1 : (force_scan s.channel_reserved_num s.channel_active).1 with
      | some x =>
        have hx : x ∈ s.channel_active := force_scan_fst_mem hscan1
        have hrange : 0 ≤ x ∧ x < s.channel_max :=
          (hwf.memIff x).mp (Or.inr (Or.inr hx))
        obtain ⟨t, ht⟩ := get_channel_isSome hbuf hrange.2
        rw [ht]
        refine ⟨⟨x, rfl⟩, ?_⟩
        intro _ _
        unfold spec_force_choice
        rw [← force_scan_fst, hscan1]
      | none =>
        cases hscan2 : (force_scan s.channel_reserved_num s.channel_active).2 with
        | some y =>
          have hy : y ∈ s.channel_active := force_scan_snd_mem hscan2
          have hrange : 0 ≤ y ∧ y < s.channel_max :=
            (hwf.memIff y).mp (Or.inr (Or.inr hy))
          obtain ⟨t, ht⟩ := get_channel_isSome hbuf hrange.2
          rw [ht]
          refine ⟨⟨y, rfl⟩, ?_⟩
          intro _ _
          unfold spec_force_choice
          rw [← force_scan_fst, hscan1, ← force_scan_snd_of_none
            s.channel_reserved_num s.channel_active hscan1, hscan2]
        | none =>
          obtain ⟨t, ht⟩ := get_channel_isSome hbuf hmax
          rw [ht]
          refine ⟨⟨0, rfl⟩, ?_⟩
          intro _ _
          unfold spec_force_choice
          rw [← force_scan_fst, hscan1, ← force_scan_snd_of_none
            s.channel_reserved_num s.channel_active hscan1, hscan2]

/-- C3 (witness): with capacity shrunk to 1 and the single channel playing
(both inactive pools empty), `find_channel(force=true)` still returns a
channel, namely the specification's reclamation choice. -/
theorem c3_find_channel_force_witness :
    (∃ id, (find_channel (execs [MOp.init true 22050 (-16) 2 4096,
        MOp.setNumChannels 1, MOp.soundPlay ⟨[1], 1⟩ 0] mkMixer) true).1
      = some (some id))
    ∧ ((execs [MOp.init true 22050 (-16) 2 4096, MOp.setNumChannels 1,
          MOp.soundPlay ⟨[1], 1⟩ 0] mkMixer).channel_available = [] →
        (execs [MOp.init true 22050 (-16) 2 4096, MOp.setNumChannels 1,
          MOp.soundPlay ⟨[1], 1⟩ 0] mkMixer).channel_reserved = [] →
        (find_channel (execs [MOp.init true 22050 (-16) 2 4096,
            MOp.setNumChannels 1, MOp.soundPlay ⟨[1], 1⟩ 0] mkMixer) true).1
          = some (some (spec_force_choice
              (execs [MOp.init true 22050 (-16) 2 4096, MOp.setNumChannels 1,
                MOp.soundPlay ⟨[1], 1⟩ 0] mkMixer).channel_reserved_num
              (execs [MOp.init true 22050 (-16) 2 4096, MOp.setNumChannels 1,
                MOp.soundPlay ⟨[1], 1⟩ 0] mkMixer).channel_active))) :=
  c3_find_channel_force
    (execs [MOp.init true 22050 (-16) 2 4096, MOp.setNumChannels 1,
      MOp.soundPlay ⟨[1], 1⟩ 0] mkMixer)
    (wf_execs [MOp.init true 22050 (-16) 2 4096, MOp.setNumChannels 1,
      MOp.soundPlay ⟨[1], 1⟩ 0] mkMixer wf_mkMixer (by decide))
    (by decide) (by decide)

theorem regSet_regSet (s : MixerState) (id : Int) (a b : ChannelState) :
    regSet (regSet s id a) id b = regSet s id b := by
  unfold regSet
  dsimp only
  congr 1
  funext j
  by_cases hj : j = id <;> simp [hj]

theorem pulls_zero (s : MixerState) (id : Int) : pulls s id 0 = ([], s) := rfl

theorem pulls_succ (s : MixerState) (id : Int) (n : Nat) :
    pulls s id (n + 1)
      = ((channel_get s id).1.1 :: (pulls (channel_get s id).2 id n).1,
         (pulls (channel_get s id).2 id n).2) := rfl

theorem pulls_add (m n : Nat) : ∀ (s : MixerState) (id : Int),
    pulls s id (m + n)
      = ((pulls s id m).1 ++ (pulls (pulls s id m).2 id n).1,
         (pulls (pulls s id m).2 id n).2) := by
  induction m with
  | zero =>
    intro s id
    rw [Nat.zero_add, pulls_zero]
    simp
  | succ k ih =>
    intro s id
    have h1 : k + 1 + n = (k + n) + 1 := by omega
    rw [h1, pulls_succ, ih, pulls_succ]
    simp

theorem channel_get_eos_stop {s : MixerState} {id : Int} {ch : ChannelState}
    {snd : Snd} (hch : s.channels id = some ch)
    (hst : ch.stream = some ([] : List Nat)) (hsnd : ch.sound = some snd)
    (hl : ch.loops = 0) :
    channel_get s id = ((0, 1, 1), channel_stop s id) := by
  unfold channel_get
  rw [hch]
  dsimp only
  rw [hst, hsnd]
  dsimp only
  rw [if_pos hl]

theorem channel_get_eos_loop {s : MixerState} {id : Int} {ch : ChannelState}
    {snd : Snd} (hch : s.channels id = some ch)
    (hst : ch.stream = some ([] : List Nat)) (hsnd : ch.sound = some snd)
    (hl : ¬ ch.loops = 0) :
    channel_get s id
      = ((0, 1, 1),
         regSet s id { ch with sound := some snd, stream := some snd.chunks,
                               loops := ch.loops - 1 }) := by
  unfold channel_get
  rw [hch]
  dsimp only
  rw [hst, hsnd]
  dsimp only
  rw [if_neg hl]

theorem channel_get_chunk {s : MixerState} {id : Int} {ch : ChannelState}
    {snd : Snd} {c : Nat} {rest : List Nat}
    (hch : s.channels id = some ch) (hst : ch.stream = some (c :: rest))
    (hsnd : ch.sound = some snd) :
    channel_get s id
      = (((c : Int), ch.lvolume * snd.volume, ch.rvolume * snd.volume),
         regSet s id { ch with stream := some rest }) := by
  unfold channel_get
  rw [hch]
  dsimp only
  rw [hst, hsnd]

theorem pulls_cycle (cs : List Nat) :
    ∀ (s : MixerState) (id : Int) (ch : ChannelState) (snd : Snd),
      s.channels id = some ch → ch.stream = some cs → ch.sound = some snd →
      ¬ ch.loops = 0 →
      pulls s id (cs.length + 1)
        = (cs.map (fun (n : Nat) => (n : Int)) ++ [0],
           regSet s id { ch with sound := some snd,
                                 stream := some snd.chunks,
                                 loops := ch.loops - 1 }) := by
  induction cs with
  | nil =>
    intro s id ch snd hch hst hsnd hl
    simp only [List.length_nil, List.map_nil, List.nil_append]
    rw [pulls_succ, channel_get_eos_loop hch hst hsnd hl, pulls_zero]
  | cons c rest ih =>
    intro s id ch snd hch hst hsnd hl
    have hch1 : (regSet s id { ch with stream := some rest }).channels id
        = some { ch with stream := some rest } := by simp
    have hih := ih (regSet s id { ch with stream := some rest }) id
      { ch with stream := some rest } snd hch1 rfl hsnd hl
    simp only [List.length_cons, List.map_cons]
    rw [pulls_succ, channel_get_chunk hch hst hsnd]
    dsimp only
    rw [hih, regSet_regSet]
    simp

theorem pulls_last (cs : List Nat) :
    ∀ (s : MixerState) (id : Int) (ch : ChannelState) (snd : Snd),
      s.channels id = some ch → ch.stream = some cs → ch.sound = some snd →
      ch.loops = 0 →
      (pulls s id (cs.length + 1)).1 = cs.map (fun (n : Nat) => (n : Int)) ++ [0]
      ∧ ((pulls s id (cs.length + 1)).2.channels id).map ChannelState.active
          = some false := by
  induction cs with
  | nil =>
    intro s id ch snd hch hst hsnd hl
    simp only [List.length_nil, List.map_nil, List.nil_append]
    rw [pulls_succ, channel_get_eos_stop hch hst hsnd hl, pulls_zero]
    refine ⟨rfl, ?_⟩
    cases ha : ch.active with
    | false =>
      rw [channel_stop_not_active hch ha]
      dsimp only
      rw [hch]
      simp [ha]
    | true =>
      dsimp only
      rw [channel_stop_channels hch ha id, if_pos rfl]
      rfl
  | cons c rest ih =>
    intro s id ch snd hch hst hsnd hl
    have hch1 : (regSet s id { ch with stream := some rest }).channels id
        = some { ch with stream := some rest } := by simp
    have hih := ih (regSet s id { ch with stream := some rest }) id
      { ch with stream := some rest } snd hch1 rfl hsnd hl
    simp only [List.length_cons, List.map_cons]
    rw [pulls_succ, channel_get_chunk hch hst hsnd]
    dsimp only
    exact ⟨by rw [hih.1]; simp, hih.2⟩

/-- C2 (counterexample): the claim that the end-of-stream loop decrement is a
no-op for `loops_remaining = -1` is false: the source always executes
`self._loops -= 1` on the reopen branch, so a pull at end of stream with
`loops = -1` leaves `loops = -2`. -/
theorem c2_loop_eos_counterexample :
    ¬ (((channel_get (execs [MOp.init true 22050 (-16) 2 4096,
          MOp.soundPlay ⟨[], 1⟩ (-1)] mkMixer) 0).2.channels 0).map
        ChannelState.loops = some (-1)) := by
  decide

/-- C2 (amended): a pull (`Channel._get`) hitting end of stream with
`loops_remaining = 0` stops the channel and returns a zero-length buffer;
with `loops_remaining ≠ 0` (including `-1`) it reopens the same sound's
decode cursor from the start, returns a zero-length buffer for that cycle,
and always decrements `loops_remaining` — the decrement is not a no-op at
`-1`, which becomes `-2`.  Consequently playing a sound with `loops = 2`
produces exactly 3 playthroughs of the stream, each followed by exactly one
zero-length pull, after which the channel is inactive. -/
theorem c2_loop_eos :
    (∀ (s : MixerState) (id : Int) (ch : ChannelState) (snd : Snd),
      s.channels id = some ch → ch.stream = some ([] : List Nat) →
      ch.sound = some snd → ch.loops = 0 →
      channel_get s id = ((0, 1, 1), channel_stop s id))
    ∧ (∀ (s : MixerState) (id : Int) (ch : ChannelState) (snd : Snd),
      s.channels id = some ch → ch.stream = some ([] : List Nat) →
      ch.sound = some snd → ¬ ch.loops = 0 →
      channel_get s id
        = ((0, 1, 1),
           regSet s id { ch with sound := some snd,
                                 stream := some snd.chunks,
                                 loops := ch.loops - 1 }))
    ∧ (∀ (cs : List Nat) (v : Rat) (s : MixerState) (id : Int)
        (ch : ChannelState),
      s.channels id = some ch → ch.stream = some cs →
      ch.sound = some (⟨cs, v⟩ : Snd) → ch.loops = 2 →
      (pulls s id (3 * cs.length + 3)).1
        = (cs.map (fun (n : Nat) => (n : Int)) ++ [0])
          ++ ((cs.map (fun (n : Nat) => (n : Int)) ++ [0])
            ++ (cs.map (fun (n : Nat) => (n : Int)) ++ [0]))
      ∧ ((pulls s id (3 * cs.length + 3)).2.channels id).map
          ChannelState.active = some false) := by
  refine ⟨fun s id ch snd hch hst hsnd hl =>
      channel_get_eos_stop hch hst hsnd hl,
    fun s id ch snd hch hst hsnd hl =>
      channel_get_eos_loop hch hst hsnd hl, ?_⟩
  intro cs v s id ch hch hst hsnd hl
  have h3 : 3 * cs.length + 3 = (cs.length + 1) + ((cs.length + 1)
      + (cs.length + 1)) := by omega
  have hc1 := pulls_cycle cs s id ch ⟨cs, v⟩ hch hst hsnd
    (by rw [hl]; decide)
  have hch1 : (regSet s id
        { ch with sound := some (⟨cs, v⟩ : Snd),
                  stream := some (⟨cs, v⟩ : Snd).chunks,
                  loops := ch.loops - 1 }).channels id
      = some { ch with sound := some (⟨cs, v⟩ : Snd),
                       stream := some (⟨cs, v⟩ : Snd).chunks,
                       loops := ch.loops - 1 } := by simp
  have hc2 := pulls_cycle cs
    (regSet s id
      { ch with sound := some (⟨cs, v⟩ : Snd),
                stream := some (⟨cs, v⟩ : Snd).chunks,
                loops := ch.loops - 1 }) id
    { ch with sound := some (⟨cs, v⟩ : Snd),
              stream := some (⟨cs, v⟩ : Snd).chunks,
              loops := ch.loops - 1 }
    ⟨cs, v⟩ hch1 rfl rfl
    (by show ¬ ch.loops - 1 = 0; rw [hl]; decide)
  have hch2 : (regSet s id
        { ch with sound := some (⟨cs, v⟩ : Snd),
                  stream := some (⟨cs, v⟩ : Snd).chunks,
                  loops := ch.loops - 1 - 1 }).channels id
      = some { ch with sound := some (⟨cs, v⟩ : Snd),
                       stream := some (⟨cs, v⟩ : Snd).chunks,
                       loops := ch.loops - 1 - 1 } := by simp
  have hc3 := pulls_last cs
    (regSet s id
      { ch with sound := some (⟨cs, v⟩ : Snd),
                stream := some (⟨cs, v⟩ : Snd).chunks,
                loops := ch.loops - 1 - 1 }) id
    { ch with sound := some (⟨cs, v⟩ : Snd),
              stream := some (⟨cs, v⟩ : Snd).chunks,
              loops := ch.loops - 1 - 1 }
    ⟨cs, v⟩ hch2 rfl rfl (by show ch.loops - 1 - 1 = 0; rw [hl]; decide)
  rw [h3, pulls_add (cs.length + 1) (cs.length + 1 + (cs.length + 1)),
    pulls_add (cs.length + 1) (cs.length + 1), hc1]
  dsimp only
  rw [hc2, regSet_regSet]
  dsimp only
  exact ⟨by rw [hc3.1], hc3.2⟩

/-- C2 (witness): at the concrete state playing sound `[7]` with `loops = 2`,
six pulls yield exactly the three playthroughs `7, 0, 7, 0, 7, 0` and leave
the channel inactive. -/
theorem c2_loop_eos_witness :
    (pulls (execs [MOp.init true 22050 (-16) 2 4096,
        MOp.soundPlay ⟨[7], 1⟩ 2] mkMixer) 0 (3 * [7].length + 3)).1
      = ([7].map (fun (n : Nat) => (n : Int)) ++ [0])
        ++ (([7].map (fun (n : Nat) => (n : Int)) ++ [0])
          ++ ([7].map (fun (n : Nat) => (n : Int)) ++ [0]))
    ∧ ((pulls (execs [MOp.init true 22050 (-16) 2 4096,
        MOp.soundPlay ⟨[7], 1⟩ 2] mkMixer) 0 (3 * [7].length + 3)).2.channels
          0).map ChannelState.active = some false :=
  c2_loop_eos.2.2 [7] 1
    (execs [MOp.init true 22050 (-16) 2 4096, MOp.soundPlay ⟨[7], 1⟩ 2]
      mkMixer) 0
    ⟨some ⟨[7], 1⟩, some [7], true, false, 2, 1, 1, 1⟩
    (by decide) (by decide) (by decide) (by decide)

theorem play_priv_active (s : MixerState) (id : Int) (snd : Snd)
    (loops : Int) :
    (channel_play_priv s id snd loops).channel_active = s.channel_active := by
  unfold channel_play_priv
  cases s.channels id with
  | none => rfl
  | some ch => simp

/-- C7 (counterexample): `init` returns `None` on every path — on success it
does not return the negotiated format (the state records the backend as
initialized, yet the call's result is absent) — and after a failed `init`
playback is not a no-op: `Sound.play` still allocates channel 0, returns it
and activates it, because the failed attempt already recorded the buffer
size that `Channel` construction reads. -/
theorem c7_init_failure_counterexample :
    ((mixer_init mkMixer true 22050 (-16) 2 4096).1 = none
      ∧ (mixer_init mkMixer true 22050 (-16) 2 4096).2.initialized = true)
    ∧ (mixer_init mkMixer false 22050 (-16) 2 4096).2.initialized = false
    ∧ (sound_play (mixer_init mkMixer false 22050 (-16) 2 4096).2
        ⟨[1], 1⟩ 0).1 = some (some 0)
    ∧ 0 ∈ (sound_play (mixer_init mkMixer false 22050 (-16) 2 4096).2
        ⟨[1], 1⟩ 0).2.channel_active := by
  decide

/-- C7 (amended): `init` returns an absent result on every path, success
included (the negotiated format is only observable through `get_init`); its
resulting initialized flag is the disjunction of the prior flag with the
backend opening; a first `init` attempt records the buffer size even on
failure; and on a well-formed state whose buffer size has been recorded and
whose available pool is nonempty, `Sound.play` is never a no-op: it returns
the front available id and activates it — so playback after a failed `init`
allocates a channel rather than yielding an absent result. -/
theorem c7_init_failure (s : MixerState) (backend_ok : Bool)
    (frequency size channels buffer : Int) :
    (mixer_init s backend_ok frequency size channels buffer).1 = none
    ∧ (mixer_init s backend_ok frequency size channels buffer).2.initialized
        = (s.initialized || backend_ok)
    ∧ (s.initialized = false →
        (mixer_init s backend_ok frequency size channels
          buffer).2.buffer_size_set = true)
    ∧ (∀ (snd : Snd) (loops id : Int) (rest : List Int), WF s →
        s.channel_available = id :: rest → s.buffer_size_set = true →
        (sound_play s snd loops).1 = some (some id)
        ∧ id ∈ (sound_play s snd loops).2.channel_active) := by
  refine ⟨?_, ?_, ?_, ?_⟩
  · unfold mixer_init
    split_ifs <;> rfl
  · unfold mixer_init
    cases hI : s.initialized with
    | false =>
      rw [if_pos rfl]
      dsimp only
      cases backend_ok with
      | false =>
        rw [if_pos rfl]
        rfl
      | true =>
        rw [if_neg (by decide)]
        rfl
    | true =>
      rw [if_neg (by simp)]
      rw [hI]
      simp
  · intro hI
    unfold mixer_init
    rw [if_pos hI]
    dsimp only
    split_ifs <;> rfl
  · intro snd loops id rest hwf havail hbuf
    have hid : id ∈ s.channel_available := by
      rw [havail]
      exact List.mem_cons_self id rest
    have hrange : 0 ≤ id ∧ id < s.channel_max := (hwf.memIff id).mp (Or.inl hid)
    unfold sound_play retrieve_channel
    rw [havail]
    dsimp only
    obtain ⟨t, ht⟩ := get_channel_isSome
      (show ({ s with channel_available := rest }).buffer_size_set = true
        from hbuf)
      (show id < ({ s with channel_available := rest }).channel_max
        from hrange.2)
    rw [ht]
    dsimp only
    refine ⟨rfl, ?_⟩
    rw [play_priv_active]
    dsimp only
    exact List.mem_append_right _ (List.mem_singleton_self id)

/-- C7 (witness): concretely, after a failed `init` the mixer is still
uninitialized yet `Sound.play` returns channel 0 and activates it. -/
theorem c7_init_failure_witness :
    (sound_play (mixer_init mkMixer false 22050 (-16) 2 4096).2 ⟨[1], 1⟩ 0).1
        = some (some 0)
    ∧ 0 ∈ (sound_play (mixer_init mkMixer false 22050 (-16) 2 4096).2
        ⟨[1], 1⟩ 0).2.channel_active :=
  (c7_init_failure (mixer_init mkMixer false 22050 (-16) 2 4096).2 false
      22050 (-16) 2 4096).2.2.2 ⟨[1], 1⟩ 0 0 [1, 2, 3, 4, 5, 6, 7]
    (wf_execs [MOp.init false 22050 (-16) 2 4096] mkMixer wf_mkMixer
      (by decide))
    (by decide) (by decide)

/-- C3 (counterexample): the freshly imported mixer has positive capacity,
yet `find_channel(force=true)` does not return a channel: no `init` was ever
attempted, so `Channel` construction raises an `AttributeError` reading the
missing buffer size and the call propagates the exception (modeled `none`)
instead of returning a channel. -/
theorem c3_find_channel_force_counterexample :
    0 < mkMixer.channel_max ∧ (find_channel mkMixer true).1 = none := by
  decide
